import Mathlib

/-!
# Formal model of `control/frdata.py` (FrequencyResponseData)

A shallow embedding of the frequency-response-data core of the
python-control repository.  Complex response samples are modelled as
pairs of rationals (`CC`), frequency grids as `List ℚ`, and the response
tensor as a `[output][input][frequency]` nested list.  Python exceptions
are modelled by the `Err` type, one constructor per `raise` site (plus
numpy's `LinAlgError` and the `NotImplemented` sentinel); fallible
operations return `Except Err FRD`.

The single in-place mutation performed by the module — `omega.sort()`
inside `_convert_to_frd`, which sorts the *caller's* grid array — is made
explicit by having every operator also return the post-call value of the
operands' grids (state passing).  numpy's ascending in-place sort is
modelled by `List.insertionSort` with `(· ≤ ·)`.

`numpy.linalg.inv` computes the matrix inverse and raises `LinAlgError`
on singular input; it is modelled by an explicit determinant test
followed by the adjugate formula (`matInv`), which is proved below to be
a genuine two-sided inverse whenever the determinant is nonzero.
-/

/-- Complex numbers with rational real and imaginary parts: the exact
counterpart of the complex floating point scalars used by the code. -/
@[ext]
structure CC where
  re : ℚ
  im : ℚ
deriving DecidableEq

instance : Zero CC := ⟨⟨0, 0⟩⟩

instance : One CC := ⟨⟨1, 0⟩⟩

instance : Add CC := ⟨fun x y => ⟨x.re + y.re, x.im + y.im⟩⟩

instance : Mul CC := ⟨fun x y => ⟨x.re * y.re - x.im * y.im, x.re * y.im + x.im * y.re⟩⟩

instance : Neg CC := ⟨fun x => ⟨-x.re, -x.im⟩⟩

/-- Squared magnitude of a complex sample. -/
def CC.normSq (z : CC) : ℚ := z.re ^ 2 + z.im ^ 2

/-- Complex reciprocal (division as computed elementwise by numpy on
nonzero input; junk value `0` at `0`, where numpy would produce inf/nan). -/
instance : Inv CC := ⟨fun z => ⟨z.re / CC.normSq z, -z.im / CC.normSq z⟩⟩

instance : CommRing CC where
  add_assoc := fun a b c => CC.ext
    (show a.re + b.re + c.re = a.re + (b.re + c.re) by ring)
    (show a.im + b.im + c.im = a.im + (b.im + c.im) by ring)
  zero_add := fun a => CC.ext
    (show 0 + a.re = a.re by ring)
    (show 0 + a.im = a.im by ring)
  add_zero := fun a => CC.ext
    (show a.re + 0 = a.re by ring)
    (show a.im + 0 = a.im by ring)
  add_comm := fun a b => CC.ext
    (show a.re + b.re = b.re + a.re by ring)
    (show a.im + b.im = b.im + a.im by ring)
  mul_assoc := fun a b c => CC.ext
    (show (a.re * b.re - a.im * b.im) * c.re - (a.re * b.im + a.im * b.re) * c.im =
      a.re * (b.re * c.re - b.im * c.im) - a.im * (b.re * c.im + b.im * c.re) by ring)
    (show (a.re * b.re - a.im * b.im) * c.im + (a.re * b.im + a.im * b.re) * c.re =
      a.re * (b.re * c.im + b.im * c.re) + a.im * (b.re * c.re - b.im * c.im) by ring)
  one_mul := fun a => CC.ext
    (show 1 * a.re - 0 * a.im = a.re by ring)
    (show 1 * a.im + 0 * a.re = a.im by ring)
  mul_one := fun a => CC.ext
    (show a.re * 1 - a.im * 0 = a.re by ring)
    (show a.re * 0 + a.im * 1 = a.im by ring)
  left_distrib := fun a b c => CC.ext
    (show a.re * (b.re + c.re) - a.im * (b.im + c.im) =
      a.re * b.re - a.im * b.im + (a.re * c.re - a.im * c.im) by ring)
    (show a.re * (b.im + c.im) + a.im * (b.re + c.re) =
      a.re * b.im + a.im * b.re + (a.re * c.im + a.im * c.re) by ring)
  right_distrib := fun a b c => CC.ext
    (show (a.re + b.re) * c.re - (a.im + b.im) * c.im =
      a.re * c.re - a.im * c.im + (b.re * c.re - b.im * c.im) by ring)
    (show (a.re + b.re) * c.im + (a.im + b.im) * c.re =
      a.re * c.im + a.im * c.re + (b.re * c.im + b.im * c.re) by ring)
  zero_mul := fun a => CC.ext
    (show 0 * a.re - 0 * a.im = 0 by ring)
    (show 0 * a.im + 0 * a.re = 0 by ring)
  mul_zero := fun a => CC.ext
    (show a.re * 0 - a.im * 0 = 0 by ring)
    (show a.re * 0 + a.im * 0 = 0 by ring)
  neg_add_cancel := fun a => CC.ext
    (show -a.re + a.re = 0 by ring)
    (show -a.im + a.im = 0 by ring)
  mul_comm := fun a b => CC.ext
    (show a.re * b.re - a.im * b.im = b.re * a.re - b.im * a.im by ring)
    (show a.re * b.im + a.im * b.re = b.re * a.im + b.im * a.re by ring)
  nsmul := nsmulRec
  zsmul := zsmulRec

/-! ## Kernel-reducible determinant, adjugate and inverse

`numpy.linalg.inv` computes the honest matrix inverse.  Mathlib's
`Matrix.det` does not reduce inside the kernel, so the embedding uses a
Laplace expansion `detL` (proved equal to `Matrix.det`) together with
the adjugate formula. -/

/-- Determinant by Laplace expansion along the first row. -/
def detL : (n : ℕ) → Matrix (Fin n) (Fin n) CC → CC
  | 0, _ => 1
  | n + 1, A =>
      ∑ j : Fin (n + 1),
        (-1) ^ (j : ℕ) * A 0 j * detL n (A.submatrix Fin.succ j.succAbove)

/-- Adjugate entry via determinants of a row replacement (the form of
`Matrix.adjugate_apply`), kernel-reducible. -/
def adjL (n : ℕ) (A : Matrix (Fin n) (Fin n) CC) : Matrix (Fin n) (Fin n) CC :=
  Matrix.of fun i j => detL n (A.updateRow j (Pi.single i 1))

/-- The matrix inverse as computed by `numpy.linalg.inv`, via the
adjugate formula; a genuine two-sided inverse whenever `detL` is
nonzero (see `matInv_mul_self` and `self_mul_matInv`). -/
def matInv (n : ℕ) (A : Matrix (Fin n) (Fin n) CC) : Matrix (Fin n) (Fin n) CC :=
  (detL n A)⁻¹ • adjL n A

/-! ## Data model

`FrequencyResponseData` instances: response tensor indexed
`[output][input][frequency]`, frequency grid, and the smoothing flag
(`smooth = true` iff `self._ifunc` is not `None`). -/

/-- Response tensor, indexed `[output][input][frequency]`. -/
abbrev Tensor := List (List (List CC))

/-- A `FrequencyResponseData` instance. -/
structure FRD where
  noutputs : ℕ
  ninputs : ℕ
  fresp : Tensor
  omega : List ℚ
  smooth : Bool
deriving DecidableEq

/-- `FRD._epsw = 1e-8`, the bound for grid matching in `_convert_to_frd`. -/
def epsw : ℚ := 1 / 100000000

/-- numpy's in-place ascending sort (`omega.sort()`), as a value. -/
def sortQ (l : List ℚ) : List ℚ := List.insertionSort (fun a b => a ≤ b) l

/-- Rectangular-shape invariant of an ndarray-backed instance; the last
clause records that a smooth instance was necessarily built with at
least two grid points (the constructor rejects fewer). -/
def FRD.WellFormed (A : FRD) : Prop :=
  A.fresp.length = A.noutputs ∧
  (∀ row ∈ A.fresp, row.length = A.ninputs ∧
    ∀ ch ∈ row, ch.length = A.omega.length) ∧
  (A.smooth = true → 2 ≤ A.omega.length)

instance (A : FRD) : Decidable A.WellFormed := by
  unfold FRD.WellFormed; infer_instance

/-- `issiso()`. -/
def FRD.issiso (A : FRD) : Bool := A.noutputs == 1 && A.ninputs == 1

/-- Entry `t[i, j, k]` of a tensor (junk `0` out of range). -/
def tGet (t : Tensor) (k i j : ℕ) : CC :=
  ((t.getD i []).getD j []).getD k 0

/-- Entry `fresp[i, j, k]` (junk `0` out of range). -/
def FRD.sampleAt (A : FRD) (k i j : ℕ) : CC :=
  tGet A.fresp k i j

/-- The per-frequency-sample response matrix `fresp[:, :, k]`, read at an
explicitly given shape (the dimension checks of the operators guarantee
the shape matches the instance's own). -/
def sampleMatN (A : FRD) (rows cols k : ℕ) : Matrix (Fin rows) (Fin cols) CC :=
  Matrix.of fun i j => A.sampleAt k i j

/-- Python exceptions raised by the module, one constructor per raise
site, plus numpy's `LinAlgError` and the `NotImplemented` sentinel that
`__truediv__`/`__rtruediv__` return for MIMO divisors. -/
inductive Err where
  | shapeMismatch       -- TypeError, constructor: response/frequency size mismatch
  | smoothTooFewPoints  -- ValueError, constructor: can't smooth with only 1 frequency
  | realOmega           -- ValueError, eval: can only accept real-valued omega
  | notInGrid           -- ValueError, eval: not all frequencies are in the grid
  | addInputDim         -- ValueError, add: summand input counts differ
  | addOutputDim        -- ValueError, add: summand output counts differ
  | mulDim              -- ValueError, mul: input-output size mismatch
  | rmulDim             -- ValueError, rmul: input-output size mismatch
  | feedbackDim         -- ValueError, feedback: inputs/outputs mismatch
  | exponentNotInt      -- ValueError, pow: exponent must be an integer
  | freqMismatch        -- NotImplementedError, convert: frequency ranges do not match
  | mimoDiv             -- NotImplemented sentinel, truediv: MIMO divisor
  | convertType         -- TypeError, convert: unconvertible operand type
  | singularMatrix      -- numpy.linalg.LinAlgError from linalg.inv
deriving DecidableEq

/-- The Python exception class of each failure. -/
inductive PyClass where
  | typeErr
  | valueErr
  | notImplementedErr
  | linAlgErr
  | notImplementedSentinel
deriving DecidableEq

/-- Which Python exception class each raise site uses. -/
def Err.pyClass : Err → PyClass
  | .shapeMismatch => .typeErr
  | .smoothTooFewPoints => .valueErr
  | .realOmega => .valueErr
  | .notInGrid => .valueErr
  | .addInputDim => .valueErr
  | .addOutputDim => .valueErr
  | .mulDim => .valueErr
  | .rmulDim => .valueErr
  | .feedbackDim => .valueErr
  | .exponentNotInt => .valueErr
  | .freqMismatch => .notImplementedErr
  | .mimoDiv => .notImplementedSentinel
  | .convertType => .typeErr
  | .singularMatrix => .linAlgErr

/-- The raw-data constructor path `FRD(fresp, omega, smooth=...)` as used
by every operator: checks that the tensor is a rectangular
`(p, m, len(omega))` array (the ndarray shape test of `__init__`) and
rejects smoothing over fewer than two frequencies.  The spline fit
itself is modelled separately (`buildInterp`); here only the presence
flag is stored. -/
def construct (p m : ℕ) (t : Tensor) (omega : List ℚ) (smooth : Bool) :
    Except Err FRD :=
  if t.length = p ∧ ∀ row ∈ t, row.length = m ∧ ∀ ch ∈ row, ch.length = omega.length then
    if smooth ∧ omega.length < 2 then .error .smoothTooFewPoints
    else .ok ⟨p, m, t, omega, smooth⟩
  else .error .shapeMismatch

/-! ## Interpolation model (`smooth=True` construction) -/

/-- The fitted-curve data recorded per instance when smoothing is
requested: the common spline degree and, per `(output, input)` channel
and frequency, the fit weight passed to the fitting routine. -/
structure InterpModel where
  degree : ℕ
  weights : List (List (List ℚ))
deriving DecidableEq

/-- `degree = 3 if self.omega.size > 3 else self.omega.size - 1`. -/
def fitDegree (n : ℕ) : ℕ := if 3 < n then 3 else n - 1

/-- Fit weights `w = 1.0/(absolute(self.fresp[i, j, :]) + 0.001)`.
The complex magnitude of a rational sample is irrational in general, so
the embedding takes the magnitude function `magOf` as a parameter; the
theorems constrain it by `0 ≤ magOf z` and `(magOf z)^2 = z.normSq`. -/
def fitWeights (magOf : CC → ℚ) (t : Tensor) : List (List (List ℚ)) :=
  t.map fun row => row.map fun ch => ch.map fun z => 1 / (magOf z + 1 / 1000)

/-- The smoothing block of `__init__` (lines 307-321): fails for fewer
than two frequencies, otherwise fits one curve per channel with the
degree and weights above. -/
def buildInterp (magOf : CC → ℚ) (t : Tensor) (omega : List ℚ) :
    Except Err InterpModel :=
  if omega.length < 2 then .error .smoothTooFewPoints
  else .ok ⟨fitDegree omega.length, fitWeights magOf t⟩

/-! ## Conversion rule (`_convert_to_frd`)

Operands of the binary operators: a numeric scalar, a constant real
matrix, or another FRD instance.  (The remaining branch of
`_convert_to_frd` samples a general LTI system; no claim depends on
it and it calls outside this module.)  The FRD branch sorts the target
grid — the caller's `self.omega` — **in place**; the returned second
component is the post-call value of that grid. -/
inductive Operand where
  | scalar (c : CC)
  | matrix (rows : List (List ℚ))
  | frd (F : FRD)

/-- Caller-visible grid of an operand (used to report mutations). -/
def Operand.omegaView : Operand → List ℚ
  | .frd F => F.omega
  | _ => []

/-- Grid compatibility test of the FRD branch:
`len(omega) == len(sys.omega) and (abs(omega - sys.omega) < FRD._epsw).all()`
where `omega` has just been sorted in place. -/
def gridsMatch (sorted other : List ℚ) : Bool :=
  sorted.length == other.length &&
    (sorted.zip other).all fun p => decide (|p.1 - p.2| < epsw)

/-- Constant tensor of shape `(p, m, n)`. -/
def constTensor (p m n : ℕ) (c : CC) : Tensor :=
  List.replicate p (List.replicate m (List.replicate n c))

/-- Shape of a rectangular list-of-rows matrix, `none` when `np.array`
would not produce a 2-D array. -/
def matShape (rows : List (List ℚ)) : Option (ℕ × ℕ) :=
  match rows with
  | [] => none
  | r :: rs => if rs.all fun row => row.length == r.length
      then some (rows.length, r.length) else none

/-- Constant tensor replicating a real matrix across the grid. -/
def matTensor (rows : List (List ℚ)) (n : ℕ) : Tensor :=
  rows.map fun row => row.map fun x => List.replicate n ⟨x, 0⟩

/-- `_convert_to_frd(sys, omega, inputs, outputs)`.  Returns the
conversion result and the post-call value of the caller's `omega` array
(sorted in place iff the operand is an FRD). -/
def convertToFRD (sys : Operand) (omega : List ℚ) (inputs outputs : ℕ) :
    Except Err FRD × List ℚ :=
  match sys with
  | .frd F =>
      let ω := sortQ omega
      if gridsMatch ω F.omega then (.ok F, ω) else (.error .freqMismatch, ω)
  | .scalar c =>
      (construct outputs inputs (constTensor outputs inputs omega.length c) omega true, omega)
  | .matrix rows =>
      match matShape rows with
      | some pm =>
          (construct pm.1 pm.2 (matTensor rows omega.length) omega true, omega)
      | none => (.error .convertType, omega)

/-! ## Evaluation (`eval`) -/

/-- `np.isin(self.omega, omega)`: for each grid entry, whether it equals
(exactly — numpy `==`) some queried frequency; a complex query equals a
real grid entry iff its imaginary part is zero. -/
def isinMask (grid : List ℚ) (q : List CC) : List Bool :=
  grid.map fun w => q.any fun z => decide (z.re = w ∧ z.im = 0)

/-- `fresp[:, :, elements]`: keep the frequency slices selected by the
mask. -/
def maskFilter (mask : List Bool) (xs : List CC) : List CC :=
  ((xs.zip mask).filter fun p => p.2).map fun p => p.1

/-- `eval(omega)` for a 1-D query.  `interp` stands for the fitted-curve
evaluation `splev` used when an interpolation model is present; the
claims below only concern the exact (`_ifunc is None`) branch and the
real-valuedness check, so `interp` is universally quantified where it
could matter. -/
def FRD.eval (A : FRD) (interp : ℕ → ℕ → CC → CC) (q : List CC) :
    Except Err Tensor :=
  if q.any fun z => decide (0 < z.im) then .error .realOmega
  else if A.smooth = false then
    let mask := isinMask A.omega q
    if mask.count true < q.length then .error .notInGrid
    else .ok (A.fresp.map fun row => row.map fun ch => maskFilter mask ch)
  else
    .ok ((List.range A.noutputs).map fun i => (List.range A.ninputs).map fun j =>
      q.map fun z => interp i j z)

/-! ## Operator suite -/

instance : Div CC := ⟨fun a b => a * b⁻¹⟩

/-- Elementwise scaling `self.fresp * c` (scalar branches). -/
def tensorScale (c : CC) (t : Tensor) : Tensor :=
  t.map fun row => row.map fun ch => ch.map fun z => z * c

/-- `ones(self.fresp.shape)`. -/
def onesLike (t : Tensor) : Tensor :=
  t.map fun row => row.map fun ch => ch.map fun _ => (1 : CC)

/-- Elementwise sum of equally shaped tensors (`self.fresp + other.fresp`). -/
def tensorAdd (a b : Tensor) : Tensor :=
  List.zipWith (fun r1 r2 => List.zipWith (fun c1 c2 => List.zipWith (· + ·) c1 c2) r1 r2) a b

/-- SISO→MIMO promotion by block replication:
`bdalg.append(*([sys] * k))`.  `bdalg.append` lives outside this module;
modelled from the spec (§4.4: append identical copies along the
mismatched axis) as the fold of `append` below, which produces exactly
this block-diagonal tensor.  The appends' internal conversions sort the
grid in place (a no-op for `k ≤ 1`, where no conversion happens). -/
def promote (F : FRD) (k : ℕ) : FRD :=
  if k ≤ 1 then F else
    { noutputs := k * F.noutputs
      ninputs := k * F.ninputs
      fresp := (List.range (k * F.noutputs)).map fun i =>
        (List.range (k * F.ninputs)).map fun j =>
          (List.range F.omega.length).map fun t =>
            if i / F.noutputs = j / F.ninputs then
              F.sampleAt t (i % F.noutputs) (j % F.ninputs)
            else 0
      omega := sortQ F.omega
      smooth := F.smooth }

/-- Post-call value of a grid sorted in place by a `k`-fold promotion. -/
def promoteOmegaAfter (ω : List ℚ) (k : ℕ) : List ℚ :=
  if k ≤ 1 then ω else sortQ ω

/-- `np.ones((p, m)) * self`: `FRD.__rmul__` with a constant ones-matrix
operand, the promotion device of `__add__`.  Returns the result and the
post-call value of `self.omega`.  Note the ones matrix is converted with
`smooth=True`, so this fails outright on a grid with fewer than two
points. -/
def rmulOnes (self : FRD) (p m : ℕ) : Except Err FRD × List ℚ :=
  let conv := convertToFRD (.matrix (List.replicate p (List.replicate m 1))) self.omega 1 1
  match conv.1 with
  | .error e => (.error e, self.omega)
  | .ok o =>
    let doPro := self.issiso && !o.issiso
    let selfP := if doPro then promote self o.ninputs else self
    let selfω := if doPro then promoteOmegaAfter self.omega o.ninputs else self.omega
    let oP := if !self.issiso && o.issiso then promote o self.noutputs else o
    if selfP.noutputs ≠ oP.ninputs then (.error .rmulDim, selfω)
    else
      let n := selfP.omega.length
      let t := (List.finRange oP.noutputs).map fun i =>
        (List.finRange selfP.ninputs).map fun j =>
          (List.range n).map fun k =>
            (sampleMatN oP oP.noutputs oP.ninputs k *
              sampleMatN selfP oP.ninputs selfP.ninputs k) i j
      (construct oP.noutputs selfP.ninputs t selfP.omega (selfP.smooth && oP.smooth), selfω)

/-- Dimension checks and sum of `__add__`, after conversion and
promotion: input and output counts must agree, the result tensor is the
elementwise sum, and the result grid is the (converted) right operand's. -/
def addFinish (warned : Bool) (selfP oP : FRD) (sω oview : List ℚ) :
    Bool × Except Err FRD × List ℚ × List ℚ :=
  if selfP.ninputs ≠ oP.ninputs then (warned, .error .addInputDim, sω, oview)
  else if selfP.noutputs ≠ oP.noutputs then (warned, .error .addOutputDim, sω, oview)
  else
    (warned,
      construct selfP.noutputs selfP.ninputs (tensorAdd selfP.fresp oP.fresp) oP.omega false,
      sω, oview)

/-- `__add__`.  Returns `(warned, result, self.omega after, other's grid
after)`: the grid-mismatch warning is non-fatal (a flag here), the FRD
branch of the conversion sorts `self.omega` in place, and SISO promotion
of either operand (`np.ones(...) * sys`) sorts that operand's grid in
place through the internal appends. -/
def FRD.addF (self : FRD) (other : Operand) :
    Bool × Except Err FRD × List ℚ × List ℚ :=
  let warned := match other with
    | .frd F => !(F.omega.length == self.omega.length) ||
        ((F.omega.zip self.omega).any fun p => !(p.1 == p.2))
    | _ => false
  let conv := match other with
    | .scalar c => convertToFRD (.scalar c) self.omega self.ninputs self.noutputs
    | _ => convertToFRD other self.omega 1 1
  match conv.1 with
  | .error e => (warned, .error e, conv.2, other.omegaView)
  | .ok o =>
    let self₁ : FRD := { self with omega := conv.2 }
    if self₁.issiso && !o.issiso then
      match rmulOnes self₁ o.noutputs o.ninputs with
      | (.error e, sω) => (warned, .error e, sω, other.omegaView)
      | (.ok selfP, sω) => addFinish warned selfP o sω other.omegaView
    else if !self₁.issiso && o.issiso then
      let r := rmulOnes o self₁.noutputs self₁.ninputs
      let oview := match other with
        | .frd _ => r.2
        | _ => other.omegaView
      match r.1 with
      | .error e => (warned, .error e, conv.2, oview)
      | .ok oP => addFinish warned self₁ oP conv.2 oview
    else addFinish warned self₁ o conv.2 other.omegaView

/-- The post-promotion block of `__mul__` (lines 508-523) for the
already-converted and promoted pair: dimension check, per-sample matrix
products over the left grid, result smoothing flag = AND of both
operands' flags. -/
def mulCore (A B : FRD) : Except Err FRD :=
  if A.ninputs ≠ B.noutputs then .error .mulDim
  else
    construct A.noutputs B.ninputs
      ((List.finRange A.noutputs).map fun i => (List.finRange B.ninputs).map fun j =>
        (List.range A.omega.length).map fun k =>
          (sampleMatN A A.noutputs A.ninputs k *
            sampleMatN B A.ninputs B.ninputs k) i j)
      A.omega (A.smooth && B.smooth)

/-- `__mul__`.  Returns `(result, self.omega after, other's grid after)`. -/
def FRD.mulF (self : FRD) (other : Operand) :
    Except Err FRD × List ℚ × List ℚ :=
  match other with
  | .scalar c =>
      (construct self.noutputs self.ninputs (tensorScale c self.fresp) self.omega self.smooth,
        self.omega, [])
  | _ =>
    let conv := convertToFRD other self.omega 1 1
    match conv.1 with
    | .error e => (.error e, conv.2, other.omegaView)
    | .ok o =>
      let self₁ : FRD := { self with omega := conv.2 }
      let proSelf := self₁.issiso && !o.issiso
      let proOther := !self₁.issiso && o.issiso
      let selfP := if proSelf then promote self₁ o.noutputs else self₁
      let oP := if proOther then promote o self₁.ninputs else o
      let oview := match other with
        | .frd F => if proOther then promoteOmegaAfter F.omega self₁.ninputs else F.omega
        | _ => []
      (mulCore selfP oP, conv.2, oview)

/-- `__truediv__`: scalar divisor scales elementwise; a system divisor
must be SISO (otherwise the `NotImplemented` sentinel), and numpy
broadcasts the SISO divisor's single channel across all of self's
channels. -/
def FRD.divF (self : FRD) (other : Operand) :
    Except Err FRD × List ℚ × List ℚ :=
  match other with
  | .scalar c =>
      (construct self.noutputs self.ninputs (tensorScale c⁻¹ self.fresp) self.omega self.smooth,
        self.omega, [])
  | _ =>
    let conv := convertToFRD other self.omega 1 1
    match conv.1 with
    | .error e => (.error e, conv.2, other.omegaView)
    | .ok o =>
      if 1 < o.ninputs ∨ 1 < o.noutputs then (.error .mimoDiv, conv.2, other.omegaView)
      else
        let ch := (o.fresp.getD 0 []).getD 0 []
        let t := self.fresp.map fun row => row.map fun c =>
          List.zipWith (fun a b => a / b) c ch
        (construct self.noutputs self.ninputs t self.omega (self.smooth && o.smooth),
          conv.2, other.omegaView)

/-- Python numeric argument to `__pow__`; the code accepts only values
of exact type `int`. -/
inductive PyNum where
  | int (n : ℤ)
  | float (q : ℚ)

/-- `__pow__` for integer exponents: `0` yields the unity response,
`n > 0` computes `self * self**(n-1)`, `n < 0` computes
`(FRD(ones, omega) / self) * self**(n+1)`.  Returns the result and the
post-call `self.omega` (the internal conversions sort it in place). -/
def FRD.powInt (self : FRD) (n : ℤ) : Except Err FRD × List ℚ :=
  if n = 0 then
    (construct self.noutputs self.ninputs (onesLike self.fresp) self.omega self.smooth,
      self.omega)
  else if 0 < n then
    let r := self.powInt (n - 1)
    let self₁ : FRD := { self with omega := r.2 }
    match r.1 with
    | .error e => (.error e, r.2)
    | .ok rr =>
        let m := self₁.mulF (.frd rr)
        (m.1, m.2.1)
  else
    let u : FRD := ⟨self.noutputs, self.ninputs, onesLike self.fresp, self.omega, false⟩
    let d := u.divF (.frd self)
    match d.1 with
    | .error e => (.error e, self.omega)
    | .ok dd =>
        let r := self.powInt (n + 1)
        match r.1 with
        | .error e => (.error e, r.2)
        | .ok rr =>
            let m := dd.mulF (.frd rr)
            (m.1, r.2)
termination_by n.natAbs
decreasing_by
  · omega
  · omega

/-- `__pow__`: any argument whose type is not exactly `int` is rejected
with a ValueError (line 594: raise ValueError, despite the message
wording). -/
def FRD.powF (self : FRD) (e : PyNum) : Except Err FRD × List ℚ :=
  match e with
  | .float _ => (.error .exponentNotInt, self.omega)
  | .int n => self.powInt n

/-- `eye(self.ninputs) + other.fresp[:,:,k] @ self.fresp[:,:,k]`: the
per-sample matrix `I_AB` inverted by `feedback`. -/
def iAB (self o : FRD) (k : ℕ) : Matrix (Fin self.ninputs) (Fin self.ninputs) CC :=
  1 + sampleMatN o self.ninputs self.noutputs k * sampleMatN self self.noutputs self.ninputs k

/-- The post-conversion block of `feedback` (lines 806-819): dimension
check, then for each of the `n` samples the closed loop
`fresp[:,:,k] @ inv(I_AB_k)`; `linalg.inv` raises `LinAlgError` when
some sample matrix is singular; the result is built on the converted
operand's grid. -/
def feedbackCore (self o : FRD) (n : ℕ) : Except Err FRD :=
  if self.noutputs ≠ o.ninputs ∨ self.ninputs ≠ o.noutputs then .error .feedbackDim
  else if (List.range n).any fun k => decide (detL self.ninputs (iAB self o k) = 0) then
    .error .singularMatrix
  else
    construct self.noutputs self.ninputs
      ((List.finRange self.noutputs).map fun i => (List.finRange self.ninputs).map fun j =>
        (List.range n).map fun k =>
          (sampleMatN self self.noutputs self.ninputs k *
            matInv self.ninputs (iAB self o k)) i j)
      o.omega self.smooth

/-- `feedback(other, sign)`.  The `sign` parameter is accepted but never
read by the body (lines 801-819).  Returns the result and the post-call
grids of both operands (the conversion sorts `self.omega` in place). -/
def FRD.feedbackF (self : FRD) (other : Operand) (sign : ℤ) :
    Except Err FRD × List ℚ × List ℚ :=
  let conv := convertToFRD other self.omega 1 1
  match conv.1 with
  | .error e => (.error e, conv.2, other.omegaView)
  | .ok o => (feedbackCore self o conv.2.length, conv.2, other.omegaView)

/-- `append(other)`: block-diagonal combination; the conversion sorts
`self.omega` in place, and the result grid is the post-sort
`self.omega`. -/
def FRD.appendF (self other : FRD) : Except Err FRD × List ℚ × List ℚ :=
  let conv := convertToFRD (.frd other) self.omega other.ninputs other.noutputs
  match conv.1 with
  | .error e => (.error e, conv.2, other.omega)
  | .ok o =>
    let p1 := self.noutputs
    let m1 := self.ninputs
    let n := conv.2.length
    let t := (List.range (p1 + o.noutputs)).map fun i =>
      (List.range (m1 + o.ninputs)).map fun j =>
        (List.range n).map fun k =>
          if i < p1 ∧ j < m1 then self.sampleAt k i j
          else if p1 ≤ i ∧ m1 ≤ j then o.sampleAt k (i - p1) (j - m1)
          else 0
    (construct (p1 + o.noutputs) (m1 + o.ninputs) t conv.2 self.smooth, conv.2, other.omega)

/-- The left operand of `__mul__` after conversion (grid sorted in
place) and SISO promotion, as computed for an FRD right operand. -/
def mulPromoteSelf (self other : FRD) : FRD :=
  if ({self with omega := sortQ self.omega} : FRD).issiso && !other.issiso
  then promote {self with omega := sortQ self.omega} other.noutputs
  else {self with omega := sortQ self.omega}

/-- The right operand of `__mul__` after SISO promotion. -/
def mulPromoteOther (self other : FRD) : FRD :=
  if !({self with omega := sortQ self.omega} : FRD).issiso && other.issiso
  then promote other ({self with omega := sortQ self.omega} : FRD).ninputs
  else other

@[simp] theorem CC.zero_re : (0 : CC).re = 0 := rfl

@[simp] theorem CC.zero_im : (0 : CC).im = 0 := rfl

@[simp] theorem CC.one_re : (1 : CC).re = 1 := rfl

@[simp] theorem CC.one_im : (1 : CC).im = 0 := rfl

@[simp] theorem CC.add_re (x y : CC) : (x + y).re = x.re + y.re := rfl

@[simp] theorem CC.add_im (x y : CC) : (x + y).im = x.im + y.im := rfl

@[simp] theorem CC.mul_re (x y : CC) : (x * y).re = x.re * y.re - x.im * y.im := rfl

@[simp] theorem CC.mul_im (x y : CC) : (x * y).im = x.re * y.im + x.im * y.re := rfl

@[simp] theorem CC.neg_re (x : CC) : (-x).re = -x.re := rfl

@[simp] theorem CC.neg_im (x : CC) : (-x).im = -x.im := rfl

@[simp] theorem CC.inv_re (z : CC) : (z⁻¹).re = z.re / CC.normSq z := rfl

@[simp] theorem CC.inv_im (z : CC) : (z⁻¹).im = -z.im / CC.normSq z := rfl

theorem CC.normSq_eq_zero_iff (z : CC) : CC.normSq z = 0 ↔ z = 0 := by
  constructor
  · intro h
    rw [CC.normSq] at h
    have hre : z.re = 0 := by nlinarith [sq_nonneg z.re, sq_nonneg z.im]
    have him : z.im = 0 := by nlinarith [sq_nonneg z.re, sq_nonneg z.im]
    ext <;> simp [hre, him]
  · intro h; subst h; simp [CC.normSq]

theorem CC.inv_mul_cancel0 {z : CC} (h : z ≠ 0) : z⁻¹ * z = 1 := by
  have hn : CC.normSq z ≠ 0 := fun hc => h ((CC.normSq_eq_zero_iff z).mp hc)
  ext
  · simp [CC.normSq] at hn ⊢
    field_simp
    ring
  · simp [CC.normSq] at hn ⊢
    field_simp
    ring

theorem CC.mul_inv_cancel0 {z : CC} (h : z ≠ 0) : z * z⁻¹ = 1 := by
  rw [mul_comm]; exact CC.inv_mul_cancel0 h

theorem detL_eq_det : ∀ (n : ℕ) (A : Matrix (Fin n) (Fin n) CC), detL n A = A.det
  | 0, A => by simp [detL, Matrix.det_fin_zero]
  | n + 1, A => by
      rw [Matrix.det_succ_row_zero]
      simp only [detL]
      refine Finset.sum_congr rfl fun j _ => ?_
      rw [detL_eq_det n]

theorem adjL_eq_adjugate (n : ℕ) (A : Matrix (Fin n) (Fin n) CC) :
    adjL n A = A.adjugate := by
  funext i j
  rw [Matrix.adjugate_apply]
  simp [adjL, detL_eq_det]

theorem matInv_mul_self {n : ℕ} {A : Matrix (Fin n) (Fin n) CC}
    (h : detL n A ≠ 0) : matInv n A * A = 1 := by
  have hd : A.det ≠ 0 := by rw [← detL_eq_det]; exact h
  rw [matInv, adjL_eq_adjugate, Matrix.smul_mul, Matrix.adjugate_mul, smul_smul,
    detL_eq_det, CC.inv_mul_cancel0 hd, one_smul]

theorem self_mul_matInv {n : ℕ} {A : Matrix (Fin n) (Fin n) CC}
    (h : detL n A ≠ 0) : A * matInv n A = 1 := by
  have hd : A.det ≠ 0 := by rw [← detL_eq_det]; exact h
  rw [matInv, adjL_eq_adjugate, Matrix.mul_smul, Matrix.mul_adjugate, smul_smul,
    detL_eq_det, CC.inv_mul_cancel0 hd, one_smul]

theorem matInv_one {n : ℕ} : matInv n (1 : Matrix (Fin n) (Fin n) CC) = 1 := by
  rw [matInv, adjL_eq_adjugate, Matrix.adjugate_one, detL_eq_det, Matrix.det_one]
  have h1 : ((1 : CC))⁻¹ = 1 := by ext <;> simp [CC.normSq]
  rw [h1, one_smul]

/-! ## Structural lemmas -/

theorem sortQ_eq_self {l : List ℚ} (h : List.Sorted (· ≤ ·) l) : sortQ l = l :=
  List.Sorted.insertionSort_eq h

theorem sorted_sortQ (l : List ℚ) : List.Sorted (· ≤ ·) (sortQ l) :=
  List.sorted_insertionSort _ l

theorem sortQ_idem (l : List ℚ) : sortQ (sortQ l) = sortQ l :=
  sortQ_eq_self (sorted_sortQ l)

theorem sortQ_length (l : List ℚ) : (sortQ l).length = l.length := by
  simp [sortQ]

theorem map_finRange_getD {α : Type} {P : ℕ} (g : Fin P → α) (d : α) {i : ℕ}
    (hi : i < P) : ((List.finRange P).map g).getD i d = g ⟨i, hi⟩ := by
  rw [List.getD_eq_getElem _ _ (by simpa using hi), List.getElem_map]
  simp [List.getElem_finRange, Fin.cast]

theorem map_range_getD {α : Type} {n : ℕ} (g : ℕ → α) (d : α) {k : ℕ}
    (hk : k < n) : ((List.range n).map g).getD k d = g k := by
  rw [List.getD_eq_getElem _ _ (by simpa using hk), List.getElem_map]
  simp

theorem tGet_build {P M n : ℕ} (f : ℕ → Fin P → Fin M → CC) {i j k : ℕ}
    (hi : i < P) (hj : j < M) (hk : k < n) :
    tGet ((List.finRange P).map fun a => (List.finRange M).map fun b =>
      (List.range n).map fun c => f c a b) k i j = f k ⟨i, hi⟩ ⟨j, hj⟩ := by
  unfold tGet
  rw [map_finRange_getD _ _ hi, map_finRange_getD _ _ hj, map_range_getD _ _ hk]

theorem build_eq_fresp (A : FRD) (hwf : A.WellFormed) :
    ((List.finRange A.noutputs).map fun i => (List.finRange A.ninputs).map fun j =>
      (List.range A.omega.length).map fun k => A.sampleAt k i.val j.val) = A.fresp := by
  obtain ⟨h1, h2, _⟩ := hwf
  apply List.ext_getElem
  · rw [List.length_map, List.length_finRange, h1]
  intro i hi hi2
  rw [List.getElem_map]
  have hrow := h2 A.fresp[i] (List.getElem_mem hi2)
  apply List.ext_getElem
  · rw [List.length_map, List.length_finRange, hrow.1]
  intro j hj hj2
  rw [List.getElem_map]
  have hch := hrow.2 A.fresp[i][j] (List.getElem_mem hj2)
  apply List.ext_getElem
  · rw [List.length_map, List.length_range, hch]
  intro k hk hk2
  rw [List.getElem_map]
  simp only [List.getElem_finRange, Fin.cast, List.getElem_range, FRD.sampleAt, tGet]
  rw [List.getD_eq_getElem A.fresp [] hi2, List.getD_eq_getElem A.fresp[i] [] hj2,
    List.getD_eq_getElem A.fresp[i][j] 0 hk2]

theorem convertToFRD_frd_snd (F : FRD) (ω : List ℚ) (a b : ℕ) :
    (convertToFRD (.frd F) ω a b).2 = sortQ ω := by
  cases h : gridsMatch (sortQ ω) F.omega <;> simp [convertToFRD, h]

theorem convertToFRD_frd_fst (F : FRD) (ω : List ℚ) (a b : ℕ) :
    (convertToFRD (.frd F) ω a b).1 =
      if gridsMatch (sortQ ω) F.omega then .ok F else .error .freqMismatch := by
  cases h : gridsMatch (sortQ ω) F.omega <;> simp [convertToFRD, h]

/-! ## Claims -/

/-- C10: the `sign` parameter of `feedback` is accepted but never read
by the body, so for any two sign values the results (and the operand
mutations) are identical. -/
theorem C10_feedback_sign_ignored (self : FRD) (other : Operand) (s1 s2 : ℤ) :
    self.feedbackF other s1 = self.feedbackF other s2 := rfl

/-- C9: the real-valuedness check of `eval` fires exactly when some
queried frequency has imaginary part strictly greater than zero; in
particular a query with strictly negative imaginary part never produces
the real-valued-omega error. -/
theorem C9_eval_imag_check (A : FRD) (interp : ℕ → ℕ → CC → CC) (q : List CC) :
    A.eval interp q = .error .realOmega ↔ ∃ z ∈ q, 0 < z.im := by
  unfold FRD.eval
  by_cases h : (q.any fun z => decide (0 < z.im)) = true
  · rw [if_pos h]
    simp only [List.any_eq_true, decide_eq_true_eq] at h
    exact iff_of_true rfl h
  · simp only [h, if_false]
    constructor
    · intro hc
      by_cases hs : A.smooth = false
      · simp only [hs, if_true] at hc
        by_cases hcount : (isinMask A.omega q).count true < q.length
        · simp [hcount] at hc
        · simp [hcount] at hc
      · simp [hs] at hc
    · intro hex
      exact absurd (List.any_eq_true.mpr (by
        obtain ⟨z, hz, hzi⟩ := hex
        exact ⟨z, hz, by simpa using hzi⟩)) h

/-- C1 counterexample: the exact branch of `eval` matches queried
frequencies by exact equality (`np.isin`), not within `epsw`: on the
one-point grid `[1]`, the query `1 + 1e-9` matches the grid entry within
`epsw = 1e-8`, yet `eval` fails with the not-in-grid DomainError. -/
theorem C1_eval_tolerance_cex :
    |(1 : ℚ) + 1 / 1000000000 - 1| < epsw ∧
    FRD.eval ⟨1, 1, [[[⟨1, 0⟩]]], [1], false⟩ (fun _ _ _ => 0)
      [⟨1 + 1 / 1000000000, 0⟩] = .error .notInGrid := by
  constructor
  · rw [show (1 : ℚ) + 1 / 1000000000 - 1 = 1 / 1000000000 by ring,
      abs_of_pos (by norm_num)]
    norm_num [epsw]
  · norm_num [FRD.eval, isinMask]

/-- C3 counterexample: adding an FRD whose grid matches after sorting
mutates the left operand — the conversion sorts `self.omega` in place,
so the left operand's grid `[2, 1]` is reordered to `[1, 2]` by the
operation. -/
theorem C3_add_mutates_cex :
    (FRD.addF ⟨1, 1, [[[⟨1, 0⟩, ⟨2, 0⟩]]], [2, 1], false⟩
      (.frd ⟨1, 1, [[[⟨5, 0⟩, ⟨6, 0⟩]]], [1, 2], false⟩)).2.2.1 ≠ [2, 1] := by
  norm_num [FRD.addF, convertToFRD, sortQ, List.insertionSort, List.orderedInsert,
    gridsMatch, epsw, FRD.issiso, Operand.omegaView, addFinish, construct, tensorAdd]

/-- C4 counterexample: on mismatched grids `[1]` and `[2]` addition
does warn, but then aborts with the NotImplementedError of the
conversion instead of proceeding to a sum. -/
theorem C4_add_mismatch_aborts_cex :
    (FRD.addF ⟨1, 1, [[[⟨1, 0⟩]]], [1], false⟩
      (.frd ⟨1, 1, [[[⟨1, 0⟩]]], [2], false⟩)).1 = true ∧
    (FRD.addF ⟨1, 1, [[[⟨1, 0⟩]]], [1], false⟩
      (.frd ⟨1, 1, [[[⟨1, 0⟩]]], [2], false⟩)).2.1 = .error .freqMismatch := by
  constructor <;>
    norm_num [FRD.addF, convertToFRD, sortQ, List.insertionSort, List.orderedInsert,
      gridsMatch, epsw, FRD.issiso, Operand.omegaView, addFinish, construct, tensorAdd]

/-- C5 counterexample: with mismatched dimensions (`left.ninputs = 2`,
`right.noutputs = 1`, both non-SISO so promotion does not apply) but
also mismatched grids, multiplication raises the conversion's
NotImplementedError, not the DimensionError the claim requires. -/
theorem C5_mul_dim_error_class_cex :
    (FRD.mulF ⟨1, 2, [[[⟨1, 0⟩], [⟨1, 0⟩]]], [1], false⟩
      (.frd ⟨1, 2, [[[⟨2, 0⟩], [⟨2, 0⟩]]], [3], false⟩)).1 = .error .freqMismatch ∧
    (⟨1, 2, [[[⟨1, 0⟩], [⟨1, 0⟩]]], [1], false⟩ : FRD).ninputs ≠
      (⟨1, 2, [[[⟨2, 0⟩], [⟨2, 0⟩]]], [3], false⟩ : FRD).noutputs ∧
    Err.freqMismatch ≠ Err.mulDim ∧ Err.freqMismatch.pyClass ≠ PyClass.valueErr := by
  refine ⟨?_, by decide, by decide, by decide⟩
  norm_num [FRD.mulF, convertToFRD, sortQ, List.insertionSort, List.orderedInsert,
    gridsMatch, epsw, FRD.issiso, Operand.omegaView]

/-- C8 counterexample: feedback of a one-frequency SISO instance with
the zero system fails outright — the conversion builds the zero operand
with `smooth=True`, and smoothing rejects a single-point grid — so the
result is not `A`. -/
theorem C8_feedback_zero_onepoint_cex :
    (FRD.feedbackF ⟨1, 1, [[[⟨1, 0⟩]]], [5], false⟩ (.scalar 0) (-1)).1
      = .error .smoothTooFewPoints := by
  norm_num [FRD.feedbackF, convertToFRD, construct, constTensor]

theorem getD_map_of_lt {α β : Type} (f : α → β) (l : List α) (d : β) (d' : α)
    {i : ℕ} (hi : i < l.length) : (l.map f).getD i d = f (l.getD i d') := by
  rw [List.getD_eq_getElem _ _ (by simpa using hi), List.getElem_map,
    List.getD_eq_getElem _ _ hi]

/-- C6: smoothing construction fails on fewer than two grid frequencies;
otherwise it fits one curve per (output, input) channel, with degree 3
for grids of at least four points, degree n-1 for two or three points,
and fit weight `1/(|response| + 0.001)` at every sample — stated via the
abstracted magnitude `magOf` (pinned down by nonnegativity and its
square), with each weight `w` satisfying `w * (|z| + 1/1000) = 1`. -/
theorem C6_smooth_model (magOf : CC → ℚ) (t : Tensor) (ω : List ℚ)
    (hmag : ∀ row ∈ t, ∀ ch ∈ row, ∀ z ∈ ch, 0 ≤ magOf z ∧ magOf z ^ 2 = z.normSq) :
    (ω.length < 2 → buildInterp magOf t ω = .error .smoothTooFewPoints ∧
      ∀ p m : ℕ, ∃ e, construct p m t ω true = .error e) ∧
    (2 ≤ ω.length → ∃ mdl : InterpModel, buildInterp magOf t ω = .ok mdl ∧
      (4 ≤ ω.length → mdl.degree = 3) ∧
      (ω.length ≤ 3 → mdl.degree = ω.length - 1) ∧
      mdl.weights.length = t.length ∧
      ∀ i < t.length, (mdl.weights.getD i []).length = (t.getD i []).length ∧
        ∀ j < (t.getD i []).length,
          ((mdl.weights.getD i []).getD j []).length =
            ((t.getD i []).getD j []).length ∧
          ∀ k < ((t.getD i []).getD j []).length,
            ((mdl.weights.getD i []).getD j []).getD k 0 *
              (magOf (tGet t k i j) + 1 / 1000) = 1) := by
  constructor
  · intro hlt
    refine ⟨by rw [buildInterp, if_pos hlt], fun p m => ?_⟩
    unfold construct
    by_cases hsh : t.length = p ∧ ∀ row ∈ t, row.length = m ∧
        ∀ ch ∈ row, ch.length = ω.length
    · exact ⟨.smoothTooFewPoints, by rw [if_pos hsh, if_pos ⟨rfl, hlt⟩]⟩
    · exact ⟨.shapeMismatch, by rw [if_neg hsh]⟩
  · intro hge
    refine ⟨⟨fitDegree ω.length, fitWeights magOf t⟩,
      by rw [buildInterp, if_neg (by omega)], fun h4 => ?_, fun h3 => ?_, ?_, ?_⟩
    · rw [fitDegree, if_pos (by omega)]
    · rw [fitDegree, if_neg (by omega)]
    · simp [fitWeights]
    · intro i hi
      have hrow : (fitWeights magOf t).getD i [] =
          (t.getD i []).map fun ch => ch.map fun z => 1 / (magOf z + 1 / 1000) :=
        getD_map_of_lt _ t [] [] hi
      have hmrow : t.getD i [] ∈ t := by
        rw [List.getD_eq_getElem _ _ hi]; exact List.getElem_mem hi
      refine ⟨by rw [hrow, List.length_map], fun j hj => ?_⟩
      have hch : ((fitWeights magOf t).getD i []).getD j [] =
          ((t.getD i []).getD j []).map fun z => 1 / (magOf z + 1 / 1000) := by
        rw [hrow]; exact getD_map_of_lt _ _ [] [] hj
      have hmch : (t.getD i []).getD j [] ∈ t.getD i [] := by
        rw [List.getD_eq_getElem _ _ hj]; exact List.getElem_mem hj
      refine ⟨by rw [hch, List.length_map], fun k hk => ?_⟩
      have hz : (((fitWeights magOf t).getD i []).getD j []).getD k 0 =
          1 / (magOf (tGet t k i j) + 1 / 1000) := by
        rw [hch]
        exact getD_map_of_lt _ _ 0 0 hk
      have hmz : tGet t k i j ∈ (t.getD i []).getD j [] := by
        rw [tGet, List.getD_eq_getElem _ _ hk]; exact List.getElem_mem hk
      have hpos : 0 < magOf (tGet t k i j) + 1 / 1000 := by
        have := (hmag _ hmrow _ hmch _ hmz).1
        linarith
      rw [hz, one_div_mul_cancel (ne_of_gt hpos)]

/-- Witness for C6 at a concrete smooth construction: tensor with the
samples 3+4i (magnitude 5) and 0, grid of two frequencies. -/
theorem C6_smooth_model_witness :
    (∀ row ∈ ([[[⟨3, 4⟩, ⟨0, 0⟩]]] : Tensor), ∀ ch ∈ row, ∀ z ∈ ch,
      0 ≤ (if z.re = 3 then (5 : ℚ) else 0) ∧
        (if z.re = 3 then (5 : ℚ) else 0) ^ 2 = z.normSq) ∧
    ∃ mdl : InterpModel,
      buildInterp (fun z => if z.re = 3 then (5 : ℚ) else 0)
        [[[⟨3, 4⟩, ⟨0, 0⟩]]] [1, 2] = .ok mdl ∧ mdl.degree = 1 := by
  have hmag : ∀ row ∈ ([[[⟨3, 4⟩, ⟨0, 0⟩]]] : Tensor), ∀ ch ∈ row, ∀ z ∈ ch,
      0 ≤ (if z.re = 3 then (5 : ℚ) else 0) ∧
        (if z.re = 3 then (5 : ℚ) else 0) ^ 2 = z.normSq := by
    intro row hrow ch hch z hz
    simp only [List.mem_cons, List.not_mem_nil, or_false] at hrow
    subst hrow
    simp only [List.mem_cons, List.not_mem_nil, or_false] at hch
    subst hch
    simp only [List.mem_cons, List.not_mem_nil, or_false] at hz
    rcases hz with hz | hz <;> subst hz <;> norm_num [CC.normSq]
  refine ⟨hmag, ?_⟩
  obtain ⟨mdl, hok, _, hd, _⟩ :=
    (C6_smooth_model (fun z => if z.re = 3 then (5 : ℚ) else 0)
      [[[⟨3, 4⟩, ⟨0, 0⟩]]] [1, 2] hmag).2 (by norm_num)
  exact ⟨mdl, hok, by rw [hd (by norm_num)]; rfl⟩

theorem rmulOnes_snd_of_sorted (self : FRD) (p m : ℕ)
    (hs : List.Sorted (· ≤ ·) self.omega) : (rmulOnes self p m).2 = self.omega := by
  simp only [rmulOnes]
  rcases hconv : (convertToFRD
      (.matrix (List.replicate p (List.replicate m 1))) self.omega 1 1).1 with e | o
  · simp [hconv]
  · simp only [hconv, promoteOmegaAfter, sortQ_eq_self hs, ite_self]
    rw [apply_ite Prod.snd]
    simp

theorem convertToFRD_frd_ok_eq {F o : FRD} {ω : List ℚ} {a b : ℕ}
    (h : (convertToFRD (.frd F) ω a b).1 = .ok o) : o = F := by
  rw [convertToFRD_frd_fst] at h
  split at h
  · exact (Except.ok.inj h).symm
  · cases h

theorem addFinish_tail (w : Bool) (a b : FRD) (sω ov : List ℚ) :
    (addFinish w a b sω ov).2.2.1 = sω ∧ (addFinish w a b sω ov).2.2.2 = ov := by
  unfold addFinish
  split
  · exact ⟨rfl, rfl⟩
  split
  · exact ⟨rfl, rfl⟩
  · exact ⟨rfl, rfl⟩

theorem addF_grids_of_sorted (self other : FRD)
    (hs : List.Sorted (· ≤ ·) self.omega) (ho : List.Sorted (· ≤ ·) other.omega) :
    (self.addF (.frd other)).2.2.1 = self.omega ∧
    (self.addF (.frd other)).2.2.2 = other.omega := by
  have hsnd : (convertToFRD (.frd other) self.omega 1 1).2 = self.omega := by
    rw [convertToFRD_frd_snd, sortQ_eq_self hs]
  simp only [FRD.addF]
  rcases hconv : (convertToFRD (.frd other) self.omega 1 1).1 with e | o
  · simp [hconv, hsnd, Operand.omegaView]
  · have hoe : o = other := convertToFRD_frd_ok_eq hconv
    subst hoe
    simp only [hconv, hsnd, Operand.omegaView]
    by_cases h1 : (FRD.issiso {self with omega := self.omega} && !o.issiso) = true
    · simp only [h1, if_true]
      have hr := rmulOnes_snd_of_sorted {self with omega := self.omega}
        o.noutputs o.ninputs hs
      rcases hrm : rmulOnes {self with omega := self.omega} o.noutputs o.ninputs
        with ⟨r1, r2⟩
      have hr2 : r2 = self.omega := by rw [hrm] at hr; exact hr
      subst hr2
      cases r1
      · exact ⟨rfl, rfl⟩
      · exact addFinish_tail _ _ _ _ _
    · simp only [h1, if_false]
      by_cases h2 : (!FRD.issiso {self with omega := self.omega} && o.issiso) = true
      · simp only [h2, if_true]
        have hr := rmulOnes_snd_of_sorted o
          (FRD.noutputs {self with omega := self.omega})
          (FRD.ninputs {self with omega := self.omega}) ho
        rcases hrm : rmulOnes o (FRD.noutputs {self with omega := self.omega})
          (FRD.ninputs {self with omega := self.omega}) with ⟨r1, r2⟩
        have hr2 : r2 = o.omega := by rw [hrm] at hr; exact hr
        subst hr2
        cases r1
        · exact ⟨rfl, rfl⟩
        · exact addFinish_tail _ _ _ _ _
      · simp only [h2, if_false]
        exact addFinish_tail _ _ _ _ _

theorem mulF_grids_of_sorted (self other : FRD)
    (hs : List.Sorted (· ≤ ·) self.omega) (ho : List.Sorted (· ≤ ·) other.omega) :
    (self.mulF (.frd other)).2.1 = self.omega ∧
    (self.mulF (.frd other)).2.2 = other.omega := by
  have hsnd : (convertToFRD (.frd other) self.omega 1 1).2 = self.omega := by
    rw [convertToFRD_frd_snd, sortQ_eq_self hs]
  simp only [FRD.mulF]
  rcases hconv : (convertToFRD (.frd other) self.omega 1 1).1 with e | o
  · simp [hconv, hsnd, Operand.omegaView]
  · have hoe : o = other := convertToFRD_frd_ok_eq hconv
    subst hoe
    simp only [hconv, hsnd]
    constructor
    · trivial
    · simp [promoteOmegaAfter, sortQ_eq_self ho, ite_self]

theorem divF_grids_of_sorted (self other : FRD)
    (hs : List.Sorted (· ≤ ·) self.omega) :
    (self.divF (.frd other)).2.1 = self.omega ∧
    (self.divF (.frd other)).2.2 = other.omega := by
  have hsnd : (convertToFRD (.frd other) self.omega 1 1).2 = self.omega := by
    rw [convertToFRD_frd_snd, sortQ_eq_self hs]
  simp only [FRD.divF]
  rcases hconv : (convertToFRD (.frd other) self.omega 1 1).1 with e | o
  · simp [hconv, hsnd, Operand.omegaView]
  · simp only [hconv, hsnd, Operand.omegaView]
    constructor
    · rw [apply_ite (fun p : Except Err FRD × List ℚ × List ℚ => p.2.1)]
      simp
    · rw [apply_ite (fun p : Except Err FRD × List ℚ × List ℚ => p.2.2)]
      simp

theorem feedbackF_grids_of_sorted (self other : FRD) (s : ℤ)
    (hs : List.Sorted (· ≤ ·) self.omega) :
    (self.feedbackF (.frd other) s).2.1 = self.omega ∧
    (self.feedbackF (.frd other) s).2.2 = other.omega := by
  have hsnd : (convertToFRD (.frd other) self.omega 1 1).2 = self.omega := by
    rw [convertToFRD_frd_snd, sortQ_eq_self hs]
  simp only [FRD.feedbackF]
  rcases hconv : (convertToFRD (.frd other) self.omega 1 1).1 with e | o
  · simp [hconv, hsnd, Operand.omegaView]
  · simp only [hconv, hsnd, Operand.omegaView]
    exact ⟨trivial, trivial⟩

theorem appendF_grids_of_sorted (self other : FRD)
    (hs : List.Sorted (· ≤ ·) self.omega) :
    (self.appendF other).2.1 = self.omega ∧
    (self.appendF other).2.2 = other.omega := by
  have hsnd : (convertToFRD (.frd other) self.omega other.ninputs other.noutputs).2
      = self.omega := by
    rw [convertToFRD_frd_snd, sortQ_eq_self hs]
  simp only [FRD.appendF]
  rcases hconv : (convertToFRD (.frd other) self.omega
      other.ninputs other.noutputs).1 with e | o
  · simp [hconv, hsnd]
  · simp [hconv, hsnd]

/-- C3 (amended): provided both operands' frequency grids are sorted in
nondecreasing order, the five binary operations — addition,
multiplication, division, feedback and append — leave both operands'
grids unchanged (for an unsorted grid, the in-place `omega.sort()` of
the conversion, and the internal appends of SISO promotion, reorder the
operand's grid; response tensors are never written to). -/
theorem C3_ops_preserve_operands (self other : FRD) (s : ℤ)
    (hs : List.Sorted (· ≤ ·) self.omega) (ho : List.Sorted (· ≤ ·) other.omega) :
    ((self.addF (.frd other)).2.2.1 = self.omega ∧
      (self.addF (.frd other)).2.2.2 = other.omega) ∧
    ((self.mulF (.frd other)).2.1 = self.omega ∧
      (self.mulF (.frd other)).2.2 = other.omega) ∧
    ((self.divF (.frd other)).2.1 = self.omega ∧
      (self.divF (.frd other)).2.2 = other.omega) ∧
    ((self.feedbackF (.frd other) s).2.1 = self.omega ∧
      (self.feedbackF (.frd other) s).2.2 = other.omega) ∧
    ((self.appendF other).2.1 = self.omega ∧
      (self.appendF other).2.2 = other.omega) :=
  ⟨addF_grids_of_sorted self other hs ho, mulF_grids_of_sorted self other hs ho,
    divF_grids_of_sorted self other hs, feedbackF_grids_of_sorted self other s hs,
    appendF_grids_of_sorted self other hs⟩

/-- Witness for C3 (amended) at two concrete SISO instances over the
sorted grid `[1, 2]`. -/
theorem C3_ops_preserve_operands_witness :
    List.Sorted (· ≤ ·) (([1, 2] : List ℚ)) ∧
    (FRD.addF ⟨1, 1, [[[⟨1, 0⟩, ⟨2, 0⟩]]], [1, 2], false⟩
      (.frd ⟨1, 1, [[[⟨3, 0⟩, ⟨4, 0⟩]]], [1, 2], false⟩)).2.2.1 = [1, 2] ∧
    (FRD.feedbackF ⟨1, 1, [[[⟨1, 0⟩, ⟨2, 0⟩]]], [1, 2], false⟩
      (.frd ⟨1, 1, [[[⟨3, 0⟩, ⟨4, 0⟩]]], [1, 2], false⟩) (-1)).2.1 = [1, 2] := by
  have hsort : List.Sorted (· ≤ ·) (([1, 2] : List ℚ)) := by
    simp [List.sorted_cons]
  have h := C3_ops_preserve_operands
    ⟨1, 1, [[[⟨1, 0⟩, ⟨2, 0⟩]]], [1, 2], false⟩
    ⟨1, 1, [[[⟨3, 0⟩, ⟨4, 0⟩]]], [1, 2], false⟩ (-1) hsort hsort
  exact ⟨hsort, h.1.1, h.2.2.2.1.1⟩

theorem zip_any_ne_iff (a : List ℚ) : ∀ b : List ℚ, a.length = b.length →
    ((((a.zip b).any fun p => !(p.1 == p.2)) = true) ↔ a ≠ b) := by
  induction a with
  | nil =>
      intro b hb
      cases b with
      | nil => simp
      | cons y ys => simp at hb
  | cons x xs ih =>
      intro b hb
      cases b with
      | nil => simp at hb
      | cons y ys =>
          simp only [List.zip_cons_cons, List.any_cons, Bool.or_eq_true]
          rw [ih ys (by simpa using hb)]
          constructor
          · rintro (hxy | hne)
            · intro hc
              injection hc with h1 h2
              subst h1
              simp at hxy
            · intro hc
              injection hc with h1 h2
              exact hne h2
          · intro hne
            by_cases hxy : x = y
            · subst hxy
              exact Or.inr fun hc => hne (by rw [hc])
            · exact Or.inl (by simpa using hxy)

theorem addFinish_fst (w : Bool) (a b : FRD) (sω ov : List ℚ) :
    (addFinish w a b sω ov).1 = w := by
  unfold addFinish
  split
  · rfl
  split
  · rfl
  · rfl

theorem addF_fst (self other : FRD) :
    (self.addF (.frd other)).1 =
      (!(other.omega.length == self.omega.length) ||
        ((other.omega.zip self.omega).any fun p => !(p.1 == p.2))) := by
  simp only [FRD.addF]
  rcases hconv : (convertToFRD (.frd other) self.omega 1 1).1 with e | o
  · simp [hconv]
  · simp only [hconv]
    by_cases h1 : (FRD.issiso {self with omega :=
        (convertToFRD (.frd other) self.omega 1 1).2} && !o.issiso) = true
    · simp only [h1, if_true]
      rcases hrm : rmulOnes {self with omega :=
          (convertToFRD (.frd other) self.omega 1 1).2} o.noutputs o.ninputs
        with ⟨r1, r2⟩
      cases r1
      · rfl
      · exact addFinish_fst _ _ _ _ _
    · simp only [h1, if_false]
      by_cases h2 : (!FRD.issiso {self with omega :=
          (convertToFRD (.frd other) self.omega 1 1).2} && o.issiso) = true
      · simp only [h2, if_true]
        rcases hrm : rmulOnes o
          (FRD.noutputs {self with omega := (convertToFRD (.frd other) self.omega 1 1).2})
          (FRD.ninputs {self with omega := (convertToFRD (.frd other) self.omega 1 1).2})
          with ⟨r1, r2⟩
        cases r1
        · rfl
        · exact addFinish_fst _ _ _ _ _
      · simp only [h2, if_false]
        exact addFinish_fst _ _ _ _ _

theorem tGet_tensorAdd {a b : Tensor} {k i j : ℕ}
    (hia : i < a.length) (hib : i < b.length)
    (hja : j < (a.getD i []).length) (hjb : j < (b.getD i []).length)
    (hka : k < ((a.getD i []).getD j []).length)
    (hkb : k < ((b.getD i []).getD j []).length) :
    tGet (tensorAdd a b) k i j = tGet a k i j + tGet b k i j := by
  have h1 : (tensorAdd a b).getD i [] =
      List.zipWith (fun c1 c2 => List.zipWith (· + ·) c1 c2) (a.getD i []) (b.getD i []) := by
    rw [tensorAdd, List.getD_eq_getElem _ [] (by rw [List.length_zipWith]; omega),
      List.getElem_zipWith, List.getD_eq_getElem a [] hia, List.getD_eq_getElem b [] hib]
  have h2 : ((tensorAdd a b).getD i []).getD j [] =
      List.zipWith (· + ·) ((a.getD i []).getD j []) ((b.getD i []).getD j []) := by
    rw [h1, List.getD_eq_getElem _ [] (by rw [List.length_zipWith]; omega),
      List.getElem_zipWith, List.getD_eq_getElem (a.getD i []) [] hja,
      List.getD_eq_getElem (b.getD i []) [] hjb]
  unfold tGet
  rw [h2, List.getD_eq_getElem _ 0 (by rw [List.length_zipWith]; omega),
    List.getElem_zipWith, List.getD_eq_getElem ((a.getD i []).getD j []) 0 hka,
    List.getD_eq_getElem ((b.getD i []).getD j []) 0 hkb]

theorem wf_bounds (A : FRD) (hwf : A.WellFormed) {i j : ℕ}
    (hi : i < A.noutputs) (hj : j < A.ninputs) :
    i < A.fresp.length ∧ (A.fresp.getD i []).length = A.ninputs ∧
      ((A.fresp.getD i []).getD j []).length = A.omega.length := by
  obtain ⟨h1, h2, _⟩ := hwf
  have hi' : i < A.fresp.length := by rw [h1]; exact hi
  have hrow : A.fresp.getD i [] ∈ A.fresp := by
    rw [List.getD_eq_getElem _ _ hi']; exact List.getElem_mem hi'
  have h2' := h2 _ hrow
  have hj' : j < (A.fresp.getD i []).length := by rw [h2'.1]; exact hj
  have hch : (A.fresp.getD i []).getD j [] ∈ A.fresp.getD i [] := by
    rw [List.getD_eq_getElem _ _ hj']; exact List.getElem_mem hj'
  exact ⟨hi', h2'.1, h2'.2 _ hch⟩

/-- C4 (amended): on FRD operands, addition warns exactly when the two
grids differ (in length or exact values); it then *proceeds to a sum
only when* the right grid matches the sorted left grid elementwise
within `epsw` — otherwise the conversion aborts the addition with a
NotImplementedError (no resampling is attempted).  On success (stated
here for operands of equal shape, where no promotion applies) the
result is the elementwise sum over the right operand's grid. -/
theorem C4_add_warn_and_convert (self other : FRD)
    (hwfS : self.WellFormed) (hwfO : other.WellFormed) :
    ((self.addF (.frd other)).1 = true ↔ other.omega ≠ self.omega) ∧
    (gridsMatch (sortQ self.omega) other.omega = false →
      (self.addF (.frd other)).2.1 = .error .freqMismatch) ∧
    (gridsMatch (sortQ self.omega) other.omega = true →
      self.noutputs = other.noutputs → self.ninputs = other.ninputs →
      ∃ R, (self.addF (.frd other)).2.1 = .ok R ∧ R.omega = other.omega ∧
        R.noutputs = self.noutputs ∧ R.ninputs = self.ninputs ∧ R.smooth = false ∧
        ∀ i j k, i < self.noutputs → j < self.ninputs → k < self.omega.length →
          R.sampleAt k i j = self.sampleAt k i j + other.sampleAt k i j) := by
  refine ⟨?_, ?_, ?_⟩
  · rw [addF_fst]
    by_cases hlen : other.omega.length = self.omega.length
    · have hb : (other.omega.length == self.omega.length) = true := by
        simpa using hlen
      rw [hb]
      simp only [Bool.not_true, Bool.false_or]
      exact zip_any_ne_iff other.omega self.omega hlen
    · have hb : (other.omega.length == self.omega.length) = false := by
        simpa using hlen
      rw [hb]
      simp only [Bool.not_false, Bool.true_or]
      exact iff_of_true trivial fun hc => hlen (by rw [hc])
  · intro hgm
    have hc : (convertToFRD (.frd other) self.omega 1 1).1 = .error .freqMismatch := by
      rw [convertToFRD_frd_fst, if_neg (by simp [hgm])]
    simp only [FRD.addF, hc]
  · intro hgm hno hni
    have hc : (convertToFRD (.frd other) self.omega 1 1).1 = .ok other := by
      rw [convertToFRD_frd_fst, if_pos hgm]
    have hlen : self.omega.length = other.omega.length := by
      have := (Bool.and_eq_true _ _).mp hgm
      have h1 := this.1
      rw [Nat.beq_eq_true_eq] at h1
      rw [← sortQ_length self.omega]
      exact h1
    have hss : FRD.issiso {self with omega :=
        (convertToFRD (.frd other) self.omega 1 1).2} = other.issiso := by
      show (self.noutputs == 1 && self.ninputs == 1) = other.issiso
      rw [hno, hni]
      rfl
    have hcond1 : (FRD.issiso {self with omega :=
        (convertToFRD (.frd other) self.omega 1 1).2} && !other.issiso) = false := by
      rw [hss]
      cases other.issiso <;> rfl
    have hcond2 : (!FRD.issiso {self with omega :=
        (convertToFRD (.frd other) self.omega 1 1).2} && other.issiso) = false := by
      rw [hss]
      cases other.issiso <;> rfl
    simp only [FRD.addF, hc, hcond1, hcond2, Bool.false_eq_true, if_false]
    unfold addFinish
    rw [if_neg (by show ¬(self.ninputs ≠ other.ninputs); omega),
      if_neg (by show ¬(self.noutputs ≠ other.noutputs); omega)]
    have hshape : (tensorAdd self.fresp other.fresp).length = self.noutputs ∧
        ∀ row ∈ tensorAdd self.fresp other.fresp, row.length = self.ninputs ∧
          ∀ ch ∈ row, ch.length = other.omega.length := by
      obtain ⟨hS1, hS2, _⟩ := hwfS
      obtain ⟨hO1, hO2, _⟩ := hwfO
      unfold tensorAdd
      constructor
      · rw [List.length_zipWith, hS1, hO1, hno, min_self]
      · intro row hrow
        rw [List.mem_iff_getElem] at hrow
        obtain ⟨i, hilen, hrw⟩ := hrow
        rw [List.getElem_zipWith] at hrw
        have hiS : i < self.fresp.length := by
          rw [List.length_zipWith] at hilen; omega
        have hiO : i < other.fresp.length := by
          rw [List.length_zipWith] at hilen; omega
        have hrowS := hS2 self.fresp[i] (List.getElem_mem hiS)
        have hrowO := hO2 other.fresp[i] (List.getElem_mem hiO)
        subst hrw
        constructor
        · rw [List.length_zipWith, hrowS.1, hrowO.1, hni, min_self]
        · intro ch hch
          rw [List.mem_iff_getElem] at hch
          obtain ⟨j, hjlen, hcw⟩ := hch
          rw [List.getElem_zipWith] at hcw
          have hjS : j < self.fresp[i].length := by
            rw [List.length_zipWith] at hjlen; omega
          have hjO : j < other.fresp[i].length := by
            rw [List.length_zipWith] at hjlen; omega
          subst hcw
          rw [List.length_zipWith,
            hrowS.2 self.fresp[i][j] (List.getElem_mem hjS),
            hrowO.2 other.fresp[i][j] (List.getElem_mem hjO), hlen, min_self]
    rw [construct, if_pos hshape, if_neg (by simp)]
    refine ⟨⟨self.noutputs, self.ninputs, tensorAdd self.fresp other.fresp,
      other.omega, false⟩, rfl, rfl, rfl, rfl, rfl, ?_⟩
    intro i j k hi hj hk
    obtain ⟨hiS, hjS, hkS⟩ := wf_bounds self hwfS hi hj
    have hio : i < other.noutputs := by omega
    have hjo : j < other.ninputs := by omega
    obtain ⟨hiO, hjO, hkO⟩ := wf_bounds other hwfO hio hjo
    show tGet (tensorAdd self.fresp other.fresp) k i j = _
    rw [tGet_tensorAdd hiS hiO (by omega) (by omega) (by omega) (by omega)]
    rfl

/-- Witness for C4 (amended): two equal SISO instances on the sorted
grid `[1, 5]`; their grids match, so addition proceeds and returns a
sum over that grid. -/
theorem C4_add_warn_and_convert_witness :
    (⟨1, 1, [[[⟨1, 0⟩, ⟨1, 0⟩]]], [1, 5], false⟩ : FRD).WellFormed ∧
    gridsMatch (sortQ ([1, 5] : List ℚ)) [1, 5] = true ∧
    ∃ R, (FRD.addF ⟨1, 1, [[[⟨1, 0⟩, ⟨1, 0⟩]]], [1, 5], false⟩
      (.frd ⟨1, 1, [[[⟨1, 0⟩, ⟨1, 0⟩]]], [1, 5], false⟩)).2.1 = .ok R ∧
      R.omega = [1, 5] := by
  have hwf : (⟨1, 1, [[[⟨1, 0⟩, ⟨1, 0⟩]]], [1, 5], false⟩ : FRD).WellFormed := by
    refine ⟨rfl, ?_, by intro h; cases h⟩
    intro row hrow
    simp only [List.mem_cons, List.not_mem_nil, or_false] at hrow
    subst hrow
    refine ⟨rfl, ?_⟩
    intro ch hch
    simp only [List.mem_cons, List.not_mem_nil, or_false] at hch
    subst hch
    rfl
  have hgm : gridsMatch (sortQ ([1, 5] : List ℚ)) [1, 5] = true := by
    norm_num [gridsMatch, sortQ, List.insertionSort, List.orderedInsert, epsw]
  obtain ⟨R, hok, hω, _⟩ :=
    (C4_add_warn_and_convert _ _ hwf hwf).2.2 hgm rfl rfl
  exact ⟨hwf, hgm, R, hok, hω⟩

theorem isinMask_count (grid : List ℚ) (q : List CC) :
    (isinMask grid q).count true =
      grid.countP fun w => q.any fun z => decide (z.re = w ∧ z.im = 0) := by
  rw [isinMask]
  have h1 : ∀ (l : List Bool), l.count true = l.countP fun x => x == true :=
    fun l => rfl
  rw [h1, List.countP_map]
  refine List.countP_congr fun w _ => ?_
  simp

theorem countP_ge_of_nodup_queries (grid : List ℚ) (q : List CC)
    (hnd : q.Nodup) (hin : ∀ z ∈ q, z.im = 0 ∧ z.re ∈ grid) :
    q.length ≤ grid.countP fun w => q.any fun z => decide (z.re = w ∧ z.im = 0) := by
  set p := fun w => q.any fun z => decide (z.re = w ∧ z.im = 0) with hp
  have hnd' : (q.map CC.re).Nodup := by
    refine List.Nodup.map_on ?_ hnd
    intro x hx y hy hxy
    have hx0 := (hin x hx).1
    have hy0 := (hin y hy).1
    ext
    · exact hxy
    · rw [hx0, hy0]
  have hsub : ∀ v ∈ q.map CC.re, v ∈ grid.filter p := by
    intro v hv
    rw [List.mem_map] at hv
    obtain ⟨z, hz, hzv⟩ := hv
    rw [List.mem_filter]
    refine ⟨hzv ▸ (hin z hz).2, ?_⟩
    rw [hp]
    rw [List.any_eq_true]
    exact ⟨z, hz, by simp [hzv, (hin z hz).1]⟩
  calc q.length = (q.map CC.re).length := (List.length_map _ _).symm
    _ = (q.map CC.re).toFinset.card := (List.toFinset_card_of_nodup hnd').symm
    _ ≤ (grid.filter p).toFinset.card := by
        apply Finset.card_le_card
        intro x hx
        rw [List.mem_toFinset] at hx ⊢
        exact hsub x hx
    _ ≤ (grid.filter p).length := List.toFinset_card_le _
    _ = grid.countP p := (List.countP_eq_length_filter _ _).symm

/-- C1 (amended): without an interpolation model, `eval` matches queried
frequencies by exact equality (`np.isin`), not within the tolerance
`epsw`: it fails with the not-in-grid DomainError exactly when the
number of grid positions whose frequency occurs among the queries is
smaller than the number of queries, and otherwise returns the stored
tensor slice at exactly those grid positions; in particular a
duplicate-free list of real queries that all occur exactly in the grid
always succeeds. -/
theorem C1_eval_exact (A : FRD) (interp : ℕ → ℕ → CC → CC) (q : List CC)
    (hsm : A.smooth = false) (him : ∀ z ∈ q, z.im ≤ 0) :
    (A.eval interp q = .error .notInGrid ↔
      (isinMask A.omega q).count true < q.length) ∧
    (q.length ≤ (isinMask A.omega q).count true →
      A.eval interp q = .ok (A.fresp.map fun row => row.map fun ch =>
        maskFilter (isinMask A.omega q) ch)) ∧
    (q.Nodup → (∀ z ∈ q, z.im = 0 ∧ z.re ∈ A.omega) →
      A.eval interp q = .ok (A.fresp.map fun row => row.map fun ch =>
        maskFilter (isinMask A.omega q) ch)) := by
  have hni : ¬(q.any fun z => decide (0 < z.im)) = true := by
    rw [List.any_eq_true]
    rintro ⟨z, hz, hzi⟩
    rw [decide_eq_true_eq] at hzi
    exact absurd hzi (not_lt.mpr (him z hz))
  have heval : A.eval interp q =
      (if (isinMask A.omega q).count true < q.length then .error .notInGrid
        else .ok (A.fresp.map fun row => row.map fun ch =>
          maskFilter (isinMask A.omega q) ch)) := by
    rw [FRD.eval, if_neg hni, if_pos hsm]
  refine ⟨?_, ?_, ?_⟩
  · rw [heval]
    by_cases hc : (isinMask A.omega q).count true < q.length
    · rw [if_pos hc]
      exact iff_of_true rfl hc
    · rw [if_neg hc]
      exact iff_of_false (by intro h; cases h) hc
  · intro hge
    rw [heval, if_neg (by omega)]
  · intro hnd hin
    have hge := countP_ge_of_nodup_queries A.omega q hnd hin
    rw [heval, if_neg (by rw [isinMask_count]; omega)]

/-- Witness for C1 (amended): a two-point grid `[1, 5]` queried at the
exact grid frequency `5` returns the stored second slice. -/
theorem C1_eval_exact_witness :
    (∀ z ∈ ([⟨5, 0⟩] : List CC), z.im ≤ 0) ∧
    FRD.eval ⟨1, 1, [[[⟨7, 0⟩, ⟨8, 0⟩]]], [1, 5], false⟩ (fun _ _ _ => 0)
      [⟨5, 0⟩] = .ok [[[⟨8, 0⟩]]] := by
  have him : ∀ z ∈ ([⟨5, 0⟩] : List CC), z.im ≤ 0 := by
    intro z hz
    simp only [List.mem_cons, List.not_mem_nil, or_false] at hz
    subst hz
    norm_num
  refine ⟨him, ?_⟩
  have h := (C1_eval_exact ⟨1, 1, [[[⟨7, 0⟩, ⟨8, 0⟩]]], [1, 5], false⟩
    (fun _ _ _ => 0) [⟨5, 0⟩] rfl him).2.1 (by norm_num [isinMask])
  rw [h]
  norm_num [isinMask, maskFilter]

theorem tGet_onesLike {t : Tensor} {k i j : ℕ} (hi : i < t.length)
    (hj : j < (t.getD i []).length) (hk : k < ((t.getD i []).getD j []).length) :
    tGet (onesLike t) k i j = 1 := by
  unfold tGet onesLike
  rw [getD_map_of_lt _ t [] [] hi, getD_map_of_lt _ _ [] [] hj,
    getD_map_of_lt _ _ 0 0 hk]

/-- The unity construction `FRD(ones(self.fresp.shape), self.omega, ...)`
succeeds for a well-formed instance (the ones tensor has the instance's
own shape, and a smooth instance has at least two grid points). -/
theorem construct_onesLike (A : FRD) (hwf : A.WellFormed) (sm : Bool)
    (hsm : sm = true → 2 ≤ A.omega.length) :
    construct A.noutputs A.ninputs (onesLike A.fresp) A.omega sm =
      .ok ⟨A.noutputs, A.ninputs, onesLike A.fresp, A.omega, sm⟩ := by
  obtain ⟨h1, h2, _⟩ := hwf
  have hshape : (onesLike A.fresp).length = A.noutputs ∧
      ∀ row ∈ onesLike A.fresp, row.length = A.ninputs ∧
        ∀ ch ∈ row, ch.length = A.omega.length := by
    constructor
    · rw [onesLike, List.length_map, h1]
    · intro row hrow
      rw [onesLike, List.mem_map] at hrow
      obtain ⟨r, hr, hrw⟩ := hrow
      subst hrw
      refine ⟨by rw [List.length_map, (h2 r hr).1], ?_⟩
      intro ch hch
      rw [List.mem_map] at hch
      obtain ⟨c, hc, hcw⟩ := hch
      subst hcw
      rw [List.length_map, (h2 r hr).2 c hc]
  rw [construct, if_pos hshape]
  cases sm with
  | false => rw [if_neg (by simp)]
  | true => rw [if_neg (by have := hsm rfl; simp; omega)]

/-- C7 (amended): exponentiation rejects any non-integer exponent with a
**ValueError** (the claim's TypeError is wrong — line 594 raises
ValueError); exponent 0 yields the unity all-ones response with the same
shape, grid and smoothing flag; positive `n` computes
`self * self**(n-1)` and negative `n` computes
`(unity / self) * self**(n+1)`, propagating the sub-operations' errors
in evaluation order. -/
theorem C7_pow_integer (A : FRD) (hwf : A.WellFormed) (x : ℚ) (n : ℤ) :
    ((A.powF (.float x)).1 = .error .exponentNotInt ∧
      Err.exponentNotInt.pyClass = PyClass.valueErr) ∧
    (∃ U : FRD, A.powF (.int 0) = (.ok U, A.omega) ∧
      U.noutputs = A.noutputs ∧ U.ninputs = A.ninputs ∧ U.omega = A.omega ∧
      U.smooth = A.smooth ∧
      ∀ i j k, i < A.noutputs → j < A.ninputs → k < A.omega.length →
        U.sampleAt k i j = 1) ∧
    (0 < n → A.powInt n =
      (match (A.powInt (n - 1)).1 with
        | .error e => (.error e, (A.powInt (n - 1)).2)
        | .ok rr =>
            ((FRD.mulF {A with omega := (A.powInt (n - 1)).2} (.frd rr)).1,
              (FRD.mulF {A with omega := (A.powInt (n - 1)).2} (.frd rr)).2.1))) ∧
    (n < 0 → A.powInt n =
      (match ((⟨A.noutputs, A.ninputs, onesLike A.fresp, A.omega, false⟩ :
            FRD).divF (.frd A)).1 with
        | .error e => (.error e, A.omega)
        | .ok dd =>
            (match (A.powInt (n + 1)).1 with
              | .error e => (.error e, (A.powInt (n + 1)).2)
              | .ok rr =>
                  ((dd.mulF (.frd rr)).1, (A.powInt (n + 1)).2)))) := by
  refine ⟨⟨rfl, rfl⟩, ?_, ?_, ?_⟩
  · refine ⟨⟨A.noutputs, A.ninputs, onesLike A.fresp, A.omega, A.smooth⟩, ?_,
      rfl, rfl, rfl, rfl, ?_⟩
    · show A.powInt 0 = _
      rw [FRD.powInt, if_pos rfl,
        construct_onesLike A hwf A.smooth fun h => hwf.2.2 h]
    · intro i j k hi hj hk
      obtain ⟨hi', hj', hk'⟩ := wf_bounds A hwf hi hj
      show tGet (onesLike A.fresp) k i j = 1
      exact tGet_onesLike hi' (by omega) (by omega)
  · intro hpos
    rw [FRD.powInt, if_neg (by omega), if_pos hpos]
  · intro hneg
    rw [FRD.powInt, if_neg (by omega), if_neg (by omega)]

/-- C7 counterexample: a non-integer exponent is rejected with a
ValueError, not the TypeError stated by the claim. -/
theorem C7_pow_error_class_cex :
    (FRD.powF ⟨1, 1, [[[⟨1, 0⟩]]], [1], false⟩ (.float (1 / 2))).1
      = .error .exponentNotInt ∧
    Err.exponentNotInt.pyClass ≠ PyClass.typeErr :=
  ⟨rfl, by decide⟩

/-- Witness for C7 (amended) on a well-formed two-point SISO instance:
exponent 0 yields the unity response on the same grid. -/
theorem C7_pow_integer_witness :
    (⟨1, 1, [[[⟨2, 0⟩, ⟨3, 0⟩]]], [1, 2], false⟩ : FRD).WellFormed ∧
    ∃ U : FRD, FRD.powF ⟨1, 1, [[[⟨2, 0⟩, ⟨3, 0⟩]]], [1, 2], false⟩ (.int 0)
      = (.ok U, [1, 2]) ∧ U.omega = [1, 2] := by
  have hwf : (⟨1, 1, [[[⟨2, 0⟩, ⟨3, 0⟩]]], [1, 2], false⟩ : FRD).WellFormed := by
    decide
  obtain ⟨U, hU, _, _, hom, _⟩ :=
    (C7_pow_integer ⟨1, 1, [[[⟨2, 0⟩, ⟨3, 0⟩]]], [1, 2], false⟩ hwf (1 / 2) 1).2.1
  exact ⟨hwf, U, hU, hom⟩

theorem promote_smooth (F : FRD) (k : ℕ) : (promote F k).smooth = F.smooth := by
  unfold promote
  split <;> rfl

theorem promote_omega_length (F : FRD) (k : ℕ) :
    (promote F k).omega.length = F.omega.length := by
  unfold promote
  split
  · rfl
  · exact sortQ_length F.omega

theorem mulPromoteSelf_smooth (self other : FRD) :
    (mulPromoteSelf self other).smooth = self.smooth := by
  unfold mulPromoteSelf
  split
  · rw [promote_smooth]
  · rfl

theorem mulPromoteOther_smooth (self other : FRD) :
    (mulPromoteOther self other).smooth = other.smooth := by
  unfold mulPromoteOther
  split
  · rw [promote_smooth]
  · rfl

theorem mulPromoteSelf_omega_length (self other : FRD) :
    (mulPromoteSelf self other).omega.length = self.omega.length := by
  unfold mulPromoteSelf
  split
  · rw [promote_omega_length]
    exact sortQ_length self.omega
  · exact sortQ_length self.omega

theorem build_shape (P M n : ℕ) (f : ℕ → Fin P → Fin M → CC) :
    ((List.finRange P).map fun i => (List.finRange M).map fun j =>
      (List.range n).map fun k => f k i j).length = P ∧
    ∀ row ∈ ((List.finRange P).map fun i => (List.finRange M).map fun j =>
      (List.range n).map fun k => f k i j),
      row.length = M ∧ ∀ ch ∈ row, ch.length = n := by
  refine ⟨by rw [List.length_map, List.length_finRange], ?_⟩
  intro row hrow
  rw [List.mem_map] at hrow
  obtain ⟨i, _, hrw⟩ := hrow
  subst hrw
  refine ⟨by rw [List.length_map, List.length_finRange], ?_⟩
  intro ch hch
  rw [List.mem_map] at hch
  obtain ⟨j, _, hcw⟩ := hch
  subst hcw
  rw [List.length_map, List.length_range]

theorem mulCore_spec (A B : FRD)
    (hsm : (A.smooth && B.smooth) = true → 2 ≤ A.omega.length) :
    (A.ninputs ≠ B.noutputs → mulCore A B = .error .mulDim) ∧
    (A.ninputs = B.noutputs → ∃ R, mulCore A B = .ok R ∧
      R.noutputs = A.noutputs ∧ R.ninputs = B.ninputs ∧
      R.smooth = (A.smooth && B.smooth) ∧ R.omega = A.omega ∧
      ∀ k, k < A.omega.length → ∀ (i : Fin A.noutputs) (j : Fin B.ninputs),
        R.sampleAt k i j =
          (sampleMatN A A.noutputs A.ninputs k *
            sampleMatN B A.ninputs B.ninputs k) i j) := by
  constructor
  · intro hne
    rw [mulCore, if_pos hne]
  · intro heq
    rw [mulCore, if_neg (not_ne_iff.mpr heq), construct]
    split
    · split
      · rename_i hb
        exfalso
        obtain ⟨hbool, hlt⟩ := hb
        have := hsm hbool
        omega
      · refine ⟨_, rfl, rfl, rfl, rfl, rfl, ?_⟩
        intro k hk i j
        show tGet _ k i j = _
        rw [tGet_build _ i.isLt j.isLt hk]
    · rename_i hsh
      exact absurd (build_shape A.noutputs B.ninputs A.omega.length _) hsh

theorem mulF_frd_eq (self other : FRD)
    (hgm : gridsMatch (sortQ self.omega) other.omega = true) :
    (self.mulF (.frd other)).1 =
      mulCore (mulPromoteSelf self other) (mulPromoteOther self other) := by
  have hc : (convertToFRD (.frd other) self.omega 1 1).1 = .ok other := by
    rw [convertToFRD_frd_fst, if_pos hgm]
  have hsnd := convertToFRD_frd_snd other self.omega 1 1
  simp only [FRD.mulF, hc, hsnd, mulPromoteSelf, mulPromoteOther]

/-- C5 (amended): for FRD operands whose grids are compatible (the
right grid matches the sorted left grid within `epsw`; otherwise
conversion aborts with a NotImplementedError before any dimension
check — see the counterexample), multiplication after SISO promotion
requires `left.ninputs == right.noutputs`, raising the ValueError
DimensionError otherwise; on success the result holds the per-sample
matrix product `left[:,:,k] @ right[:,:,k]` of the promoted operands,
and its smoothing flag is the conjunction of the two operands' flags. -/
theorem C5_mul_product (self other : FRD)
    (hwfS : self.WellFormed) (hwfO : other.WellFormed)
    (hgm : gridsMatch (sortQ self.omega) other.omega = true) :
    ((mulPromoteSelf self other).ninputs ≠ (mulPromoteOther self other).noutputs →
      (self.mulF (.frd other)).1 = .error .mulDim) ∧
    ((mulPromoteSelf self other).ninputs = (mulPromoteOther self other).noutputs →
      ∃ R, (self.mulF (.frd other)).1 = .ok R ∧
        R.noutputs = (mulPromoteSelf self other).noutputs ∧
        R.ninputs = (mulPromoteOther self other).ninputs ∧
        R.smooth = (self.smooth && other.smooth) ∧
        R.omega = (mulPromoteSelf self other).omega ∧
        ∀ k, k < self.omega.length →
          ∀ (i : Fin (mulPromoteSelf self other).noutputs)
            (j : Fin (mulPromoteOther self other).ninputs),
            R.sampleAt k i j =
              (sampleMatN (mulPromoteSelf self other)
                  (mulPromoteSelf self other).noutputs
                  (mulPromoteSelf self other).ninputs k *
                sampleMatN (mulPromoteOther self other)
                  (mulPromoteSelf self other).ninputs
                  (mulPromoteOther self other).ninputs k) i j) := by
  have hb := mulF_frd_eq self other hgm
  have hsm : ((mulPromoteSelf self other).smooth &&
      (mulPromoteOther self other).smooth) = true →
      2 ≤ (mulPromoteSelf self other).omega.length := by
    intro h
    rw [mulPromoteSelf_smooth, mulPromoteOther_smooth, Bool.and_eq_true] at h
    have h2 := hwfS.2.2 h.1
    rw [mulPromoteSelf_omega_length]
    omega
  have hspec := mulCore_spec (mulPromoteSelf self other) (mulPromoteOther self other) hsm
  constructor
  · intro hne
    rw [hb]
    exact hspec.1 hne
  · intro heq
    obtain ⟨R, hok, h1, h2, h3, h4, h5⟩ := hspec.2 heq
    refine ⟨R, by rw [hb, hok], h1, h2, ?_, h4, ?_⟩
    · rw [h3, mulPromoteSelf_smooth, mulPromoteOther_smooth]
    · intro k hk i j
      exact h5 k (by rw [mulPromoteSelf_omega_length]; exact hk) i j

/-- Witness for C5 (amended): two SISO instances on the common sorted
grid `[1, 2]`; dimensions agree, so multiplication succeeds with an
unsmoothed result. -/
theorem C5_mul_product_witness :
    (⟨1, 1, [[[⟨2, 0⟩, ⟨3, 0⟩]]], [1, 2], false⟩ : FRD).WellFormed ∧
    gridsMatch (sortQ ([1, 2] : List ℚ)) [1, 2] = true ∧
    ∃ R, (FRD.mulF ⟨1, 1, [[[⟨2, 0⟩, ⟨3, 0⟩]]], [1, 2], false⟩
      (.frd ⟨1, 1, [[[⟨4, 0⟩, ⟨5, 0⟩]]], [1, 2], false⟩)).1 = .ok R ∧
      R.noutputs = 1 ∧ R.smooth = false := by
  have hwfA : (⟨1, 1, [[[⟨2, 0⟩, ⟨3, 0⟩]]], [1, 2], false⟩ : FRD).WellFormed := by
    decide
  have hwfB : (⟨1, 1, [[[⟨4, 0⟩, ⟨5, 0⟩]]], [1, 2], false⟩ : FRD).WellFormed := by
    decide
  have hgm : gridsMatch (sortQ ([1, 2] : List ℚ)) [1, 2] = true := by
    norm_num [gridsMatch, sortQ, List.insertionSort, List.orderedInsert, epsw]
  obtain ⟨R, hok, hno, _, hsm, _, _⟩ :=
    (C5_mul_product ⟨1, 1, [[[⟨2, 0⟩, ⟨3, 0⟩]]], [1, 2], false⟩
      ⟨1, 1, [[[⟨4, 0⟩, ⟨5, 0⟩]]], [1, 2], false⟩ hwfA hwfB hgm).2 rfl
  exact ⟨hwfA, hgm, R, hok, by rw [hno]; rfl, by rw [hsm]; rfl⟩

theorem feedbackCore_spec (self o : FRD) (n : ℕ)
    (hsm : self.smooth = true → 2 ≤ o.omega.length) (hn : n = o.omega.length) :
    (self.noutputs ≠ o.ninputs ∨ self.ninputs ≠ o.noutputs →
      feedbackCore self o n = .error .feedbackDim) ∧
    (self.noutputs = o.ninputs → self.ninputs = o.noutputs →
      (∀ k < n, detL self.ninputs (iAB self o k) ≠ 0) →
      ∃ R, feedbackCore self o n = .ok R ∧
        R.noutputs = self.noutputs ∧ R.ninputs = self.ninputs ∧
        R.omega = o.omega ∧ R.smooth = self.smooth ∧
        (∀ k, k < n → ∀ (i : Fin self.noutputs) (j : Fin self.ninputs),
          R.sampleAt k i j =
            (sampleMatN self self.noutputs self.ninputs k *
              matInv self.ninputs (iAB self o k)) i j) ∧
        (∀ k, k < n →
          matInv self.ninputs (iAB self o k) * iAB self o k = 1 ∧
          iAB self o k * matInv self.ninputs (iAB self o k) = 1)) := by
  constructor
  · intro hne
    rw [feedbackCore, if_pos hne]
  · intro hd1 hd2 hinv
    have hany : ¬((List.range n).any fun k =>
        decide (detL self.ninputs (iAB self o k) = 0)) = true := by
      rw [List.any_eq_true]
      rintro ⟨k, hk, hdec⟩
      rw [decide_eq_true_eq] at hdec
      exact hinv k (List.mem_range.mp hk) hdec
    rw [feedbackCore, if_neg (by push_neg; exact ⟨hd1, hd2⟩), if_neg hany, construct]
    have hbs := build_shape self.noutputs self.ninputs n fun k i j =>
      (sampleMatN self self.noutputs self.ninputs k *
        matInv self.ninputs (iAB self o k)) i j
    split
    · split
      · rename_i hb
        exfalso
        obtain ⟨hbool, hlt⟩ := hb
        have := hsm hbool
        omega
      · refine ⟨_, rfl, rfl, rfl, rfl, rfl, ?_, ?_⟩
        · intro k hk i j
          show tGet _ k i j = _
          rw [tGet_build _ i.isLt j.isLt hk]
        · intro k hk
          exact ⟨matInv_mul_self (hinv k hk), self_mul_matInv (hinv k hk)⟩
    · rename_i hsh
      refine absurd ⟨hbs.1, fun row hrow => ⟨(hbs.2 row hrow).1, fun ch hch => ?_⟩⟩ hsh
      rw [(hbs.2 row hrow).2 ch hch, hn]

theorem feedbackF_frd_eq (self other : FRD) (s : ℤ)
    (hgm : gridsMatch (sortQ self.omega) other.omega = true) :
    (self.feedbackF (.frd other) s).1 =
      feedbackCore self other (sortQ self.omega).length := by
  have hc : (convertToFRD (.frd other) self.omega 1 1).1 = .ok other := by
    rw [convertToFRD_frd_fst, if_pos hgm]
  have hsnd := convertToFRD_frd_snd other self.omega 1 1
  simp only [FRD.feedbackF, hc, hsnd]

/-- C2 (amended): for FRD operands whose grids are compatible (the
right grid matches the sorted left grid within `epsw`; otherwise the
conversion aborts with a NotImplementedError before any dimension check
— see the counterexample): if the dimension condition
`self.noutputs == other.ninputs and self.ninputs == other.noutputs`
fails, feedback raises the DimensionError; if it holds and every
per-sample matrix `I + N_k·M_k` is invertible (`linalg.inv` raises
LinAlgError otherwise), the result tensor at sample `k` is
`M_k · (I + N_k·M_k)⁻¹`, where the computed `matInv` is proved to be a
genuine two-sided inverse. -/
theorem C2_feedback_formula (self other : FRD)
    (hwfS : self.WellFormed) (hwfO : other.WellFormed)
    (hgm : gridsMatch (sortQ self.omega) other.omega = true) (s : ℤ) :
    (self.noutputs ≠ other.ninputs ∨ self.ninputs ≠ other.noutputs →
      (self.feedbackF (.frd other) s).1 = .error .feedbackDim) ∧
    (self.noutputs = other.ninputs → self.ninputs = other.noutputs →
      (∀ k < self.omega.length, detL self.ninputs (iAB self other k) ≠ 0) →
      ∃ R, (self.feedbackF (.frd other) s).1 = .ok R ∧
        R.noutputs = self.noutputs ∧ R.ninputs = self.ninputs ∧
        R.omega = other.omega ∧
        (∀ k, k < self.omega.length →
          ∀ (i : Fin self.noutputs) (j : Fin self.ninputs),
          R.sampleAt k i j =
            (sampleMatN self self.noutputs self.ninputs k *
              matInv self.ninputs (iAB self other k)) i j) ∧
        (∀ k, k < self.omega.length →
          matInv self.ninputs (iAB self other k) * iAB self other k = 1 ∧
          iAB self other k * matInv self.ninputs (iAB self other k) = 1)) := by
  have hb := feedbackF_frd_eq self other s hgm
  have hn' : (sortQ self.omega).length = other.omega.length := by
    have h1 := ((Bool.and_eq_true _ _).mp hgm).1
    rw [Nat.beq_eq_true_eq] at h1
    exact h1
  have hlen : self.omega.length = (sortQ self.omega).length :=
    (sortQ_length self.omega).symm
  have hsm : self.smooth = true → 2 ≤ other.omega.length := by
    intro h
    have := hwfS.2.2 h
    omega
  have hspec := feedbackCore_spec self other (sortQ self.omega).length hsm hn'
  constructor
  · intro hne
    rw [hb]
    exact hspec.1 hne
  · intro hd1 hd2 hinv
    obtain ⟨R, hok, h1, h2, h3, _, h5, h6⟩ := hspec.2 hd1 hd2
      (fun k hk => hinv k (by omega))
    exact ⟨R, by rw [hb, hok], h1, h2, h3,
      fun k hk => h5 k (by omega), fun k hk => h6 k (by omega)⟩

theorem detL_fin_one (A : Matrix (Fin 1) (Fin 1) CC) : detL 1 A = A 0 0 := by
  simp [detL, Fin.sum_univ_one]

/-- Witness for C2 (amended): the spec's scenario — a SISO instance with
response `[1.0]` on the grid `[1]` fed back on itself; `I + N·M = [2]`
is invertible. -/
theorem C2_feedback_formula_witness :
    gridsMatch (sortQ ([1] : List ℚ)) [1] = true ∧
    (∀ k < ([1] : List ℚ).length,
      detL 1 (iAB ⟨1, 1, [[[⟨1, 0⟩]]], [1], false⟩
        ⟨1, 1, [[[⟨1, 0⟩]]], [1], false⟩ k) ≠ 0) ∧
    ∃ R, (FRD.feedbackF ⟨1, 1, [[[⟨1, 0⟩]]], [1], false⟩
      (.frd ⟨1, 1, [[[⟨1, 0⟩]]], [1], false⟩) (-1)).1 = .ok R ∧
      R.omega = [1] := by
  have hwf : (⟨1, 1, [[[⟨1, 0⟩]]], [1], false⟩ : FRD).WellFormed := by decide
  have hgm : gridsMatch (sortQ ([1] : List ℚ)) [1] = true := by
    norm_num [gridsMatch, sortQ, List.insertionSort, List.orderedInsert, epsw]
  have hinv : ∀ k < ([1] : List ℚ).length,
      detL 1 (iAB ⟨1, 1, [[[⟨1, 0⟩]]], [1], false⟩
        ⟨1, 1, [[[⟨1, 0⟩]]], [1], false⟩ k) ≠ 0 := by
    intro k hk
    have hk1 : k < 1 := by simpa using hk
    have hk0 : k = 0 := by omega
    subst hk0
    rw [detL_fin_one]
    intro hcontra
    have hre := congrArg CC.re hcontra
    simp [iAB, sampleMatN, FRD.sampleAt, tGet, Matrix.add_apply, Matrix.mul_apply,
      Matrix.one_apply, Fin.sum_univ_one] at hre
  obtain ⟨R, hok, _, _, h3, _, _⟩ :=
    (C2_feedback_formula ⟨1, 1, [[[⟨1, 0⟩]]], [1], false⟩
      ⟨1, 1, [[[⟨1, 0⟩]]], [1], false⟩ hwf hwf hgm (-1)).2 rfl rfl hinv
  exact ⟨hgm, hinv, R, hok, h3⟩

theorem constTensor_shape (p m n : ℕ) (c : CC) :
    (constTensor p m n c).length = p ∧
    ∀ row ∈ constTensor p m n c, row.length = m ∧ ∀ ch ∈ row, ch.length = n := by
  refine ⟨by simp [constTensor], ?_⟩
  intro row hrow
  rw [constTensor] at hrow
  rw [List.eq_of_mem_replicate hrow]
  refine ⟨by simp, ?_⟩
  intro ch hch
  rw [List.eq_of_mem_replicate hch]
  simp

theorem getD_replicate {α : Type} (a d : α) (n i : ℕ) :
    (List.replicate n a).getD i d = if i < n then a else d := by
  induction n generalizing i with
  | zero => simp
  | succ nn ih =>
      cases i with
      | zero => simp [List.replicate_succ]
      | succ ii =>
          rw [List.replicate_succ, List.getD_cons_succ, ih]
          simp [Nat.succ_lt_succ_iff]

theorem tGet_constTensor_zero (p m n k i j : ℕ) :
    tGet (constTensor p m n 0) k i j = 0 := by
  unfold tGet constTensor
  rw [getD_replicate]
  split
  · rw [getD_replicate]
    split
    · rw [getD_replicate]
      split <;> rfl
    · rfl
  · rfl

theorem convert_scalar_zero (ω : List ℚ) (h2 : 2 ≤ ω.length) :
    convertToFRD (.scalar 0) ω 1 1 =
      (.ok ⟨1, 1, constTensor 1 1 ω.length 0, ω, true⟩, ω) := by
  simp only [convertToFRD]
  unfold construct
  rw [if_pos (constTensor_shape 1 1 ω.length 0), if_neg (by simp; omega)]

theorem matTensor_zero_eq (m p n : ℕ) :
    matTensor (List.replicate m (List.replicate p (0 : ℚ))) n = constTensor m p n 0 := by
  unfold matTensor constTensor
  rw [List.map_replicate, List.map_replicate]
  rfl

theorem matShape_replicate (m p : ℕ) (hm : 0 < m) :
    matShape (List.replicate m (List.replicate p (0 : ℚ))) = some (m, p) := by
  cases m with
  | zero => omega
  | succ mm =>
      rw [List.replicate_succ, matShape, if_pos ?hall]
      case hall =>
        rw [List.all_eq_true]
        intro row hrow
        rw [List.eq_of_mem_replicate hrow]
        simp
      simp

theorem convert_matrix_zero (m p : ℕ) (ω : List ℚ) (hm : 0 < m) (h2 : 2 ≤ ω.length) :
    convertToFRD (.matrix (List.replicate m (List.replicate p 0))) ω 1 1 =
      (.ok ⟨m, p, constTensor m p ω.length 0, ω, true⟩, ω) := by
  simp only [convertToFRD, matShape_replicate m p hm]
  rw [matTensor_zero_eq m p ω.length]
  unfold construct
  rw [if_pos (constTensor_shape m p ω.length 0), if_neg (by simp; omega)]

/-- C8 (amended): feedback of `A` with the zero system of matching shape
(the `p×m` zero matrix, converted by `_convert_to_frd` with
`smooth=True`) returns a system whose response tensor equals `A`'s
elementwise at every grid frequency — provided the grid has at least two
points; with fewer, the smooth conversion of the zero operand raises a
ValueError before feedback computes anything (see the counterexample). -/
theorem C8_feedback_zero_identity (A : FRD) (hm : 0 < A.ninputs)
    (h2 : 2 ≤ A.omega.length) (s : ℤ) :
    ∃ R, (A.feedbackF (.matrix (List.replicate A.ninputs
        (List.replicate A.noutputs 0))) s).1 = .ok R ∧
      R.noutputs = A.noutputs ∧ R.ninputs = A.ninputs ∧
      R.omega = A.omega ∧ R.smooth = A.smooth ∧
      ∀ k i j, k < A.omega.length → i < A.noutputs → j < A.ninputs →
        R.sampleAt k i j = A.sampleAt k i j := by
  set o : FRD :=
    ⟨A.ninputs, A.noutputs, constTensor A.ninputs A.noutputs A.omega.length 0,
      A.omega, true⟩ with ho
  have hb : (A.feedbackF (.matrix (List.replicate A.ninputs
      (List.replicate A.noutputs 0))) s).1 = feedbackCore A o A.omega.length := by
    simp only [FRD.feedbackF,
      convert_matrix_zero A.ninputs A.noutputs A.omega hm h2, ho]
  have hz : ∀ k, sampleMatN o A.ninputs A.noutputs k = 0 := by
    intro k
    refine Matrix.ext fun i j => ?_
    show tGet (constTensor A.ninputs A.noutputs A.omega.length 0) k i j =
      (0 : Matrix (Fin A.ninputs) (Fin A.noutputs) CC) i j
    rw [Matrix.zero_apply]
    exact tGet_constTensor_zero A.ninputs A.noutputs A.omega.length k i j
  have hiAB : ∀ k, iAB A o k = 1 := by
    intro k
    rw [iAB, hz k, Matrix.zero_mul, add_zero]
  have hdet : ∀ k, k < A.omega.length → detL A.ninputs (iAB A o k) ≠ 0 := by
    intro k _ hc
    rw [hiAB k, detL_eq_det, Matrix.det_one] at hc
    exact absurd hc (by decide)
  obtain ⟨R, hok, hR1, hR2, hR3, hR4, hent, _⟩ :=
    (feedbackCore_spec A o A.omega.length (fun _ => h2) rfl).2 rfl rfl hdet
  refine ⟨R, by rw [hb, hok], hR1, hR2, hR3, hR4, ?_⟩
  intro k i j hk hi hj
  have := hent k hk ⟨i, hi⟩ ⟨j, hj⟩
  rw [this, hiAB k, matInv_one, Matrix.mul_one]
  rfl

theorem C8_feedback_zero_identity_witness :
    ∃ R, ((⟨1, 1, [[[⟨2, 0⟩, ⟨3, 0⟩]]], [1, 2], false⟩ : FRD).feedbackF
        (.matrix (List.replicate 1 (List.replicate 1 0))) (-1)).1 = .ok R ∧
      R.noutputs = 1 ∧ R.ninputs = 1 ∧
      R.omega = [1, 2] ∧ R.smooth = false ∧
      ∀ k i j, k < 2 → i < 1 → j < 1 →
        R.sampleAt k i j =
          FRD.sampleAt ⟨1, 1, [[[⟨2, 0⟩, ⟨3, 0⟩]]], [1, 2], false⟩ k i j := by
  exact C8_feedback_zero_identity ⟨1, 1, [[[⟨2, 0⟩, ⟨3, 0⟩]]], [1, 2], false⟩
    (by decide) (by decide) (-1)

/-- C2 counterexample: two SISO instances satisfy the dimension
condition, yet feedback on grids `[3]` versus `[4]` neither returns the
closed-loop formula nor a DimensionError: the conversion's
NotImplementedError aborts it first. -/
theorem C2_feedback_formula_cex :
    (FRD.feedbackF ⟨1, 1, [[[⟨5, 0⟩]]], [3], false⟩
      (.frd ⟨1, 1, [[[⟨7, 0⟩]]], [4], false⟩) (-1)).1 = .error .freqMismatch ∧
    (⟨1, 1, [[[⟨5, 0⟩]]], [3], false⟩ : FRD).noutputs =
      (⟨1, 1, [[[⟨7, 0⟩]]], [4], false⟩ : FRD).ninputs ∧
    (⟨1, 1, [[[⟨5, 0⟩]]], [3], false⟩ : FRD).ninputs =
      (⟨1, 1, [[[⟨7, 0⟩]]], [4], false⟩ : FRD).noutputs ∧
    Err.freqMismatch ≠ Err.feedbackDim := by
  refine ⟨?_, by decide, by decide, by decide⟩
  norm_num [FRD.feedbackF, convertToFRD, sortQ, List.insertionSort, List.orderedInsert,
    gridsMatch, epsw]
